import Mathlib

/-!
Verification development for the healthai-platform serverless backend.

The definitions below are a shallow embedding of the JavaScript sources
`src/functions/api/extract.js` (first document: the multi-strategy health
parameter extraction pipeline) and `src/functions/api/documents.js`
(document storage, listing, deletion and trend analysis).

Modelling conventions:
* JavaScript values are embedded as the `Json` inductive (numbers as exact
  rationals `ℚ` plus an explicit `nan`; IEEE rounding is out of scope for
  the magnitudes compared here).
* JavaScript regular expressions are embedded as `RE` syntax trees and run
  by a fuel-based backtracking matcher `mtch` that mirrors the leftmost,
  greedy/lazy backtracking semantics of the JS engine, including word
  boundaries, the single capturing group these patterns use, and the
  `lastIndex`-style scanning of global regexes.
* Host facilities (`env.AI.run`, `JSON.parse`, `Date`, the D1 database)
  are modelled explicitly: the LLM as an `AIBehavior` value, `JSON.parse`
  as an executable parser, `Date` parsing restricted to the numeric date
  shapes the extraction regexes can produce (the runtime is UTC on
  Cloudflare Workers), and the database as in-memory lists of rows.
-/

/-- Embedded JavaScript value (`undefined`, `null`, `NaN`, booleans,
numbers as exact rationals, strings, arrays, objects). -/
inductive Json where
  | undefined : Json
  | null : Json
  | nan : Json
  | bool (b : Bool) : Json
  | num (q : ℚ) : Json
  | str (s : String) : Json
  | arr (xs : List Json) : Json
  | obj (fs : List (String × Json)) : Json
  deriving Repr

mutual

/-- Structural equality of embedded JS values (SameValueZero: used for
`Map` keys, so `NaN` equals `NaN`). -/
def jbeq : Json → Json → Bool
  | .undefined, .undefined => true
  | .null, .null => true
  | .nan, .nan => true
  | .bool a, .bool b => a == b
  | .num a, .num b => a == b
  | .str a, .str b => a == b
  | .arr xs, .arr ys => jbeqL xs ys
  | .obj xs, .obj ys => jbeqO xs ys
  | _, _ => false

def jbeqL : List Json → List Json → Bool
  | [], [] => true
  | x :: xs, y :: ys => jbeq x y && jbeqL xs ys
  | _, _ => false

def jbeqO : List (String × Json) → List (String × Json) → Bool
  | [], [] => true
  | (k1, v1) :: xs, (k2, v2) :: ys => k1 == k2 && jbeq v1 v2 && jbeqO xs ys
  | _, _ => false

end

/-- Property access `v[k]`. On non-objects this returns `undefined`
(member access on `null`/`undefined` would throw in JS; the places where
that matters are noted at their call sites). -/
def jget (v : Json) (k : String) : Json :=
  match v with
  | .obj fs =>
    match fs.find? (fun e => e.1 == k) with
    | some e => e.2
    | none => .undefined
  | _ => .undefined

/-- JavaScript truthiness. -/
def truthy : Json → Bool
  | .undefined => false
  | .null => false
  | .nan => false
  | .bool b => b
  | .num q => q != 0
  | .str s => s != ""
  | .arr _ => true
  | .obj _ => true

/-- `a || b`. -/
def jsOr (a b : Json) : Json := if truthy a then a else b

/-- Assign field `k := v` in an object field list: replaces the first
occurrence in place (JS objects keep the original insertion position of a
key), otherwise appends. -/
def setF : List (String × Json) → String → Json → List (String × Json)
  | [], k, v => [(k, v)]
  | (k', v') :: t, k, v =>
    if k' = k then (k', v) :: t else (k', v') :: setF t k v

/-- Object literal with spread, `{ ...v, k1: v1, ... }`. Spreading a
non-object yields only the explicit fields (for the primitives that occur
here the spread contributes no own enumerable properties that are ever
read back). -/
def jspread (v : Json) (extra : List (String × Json)) : Json :=
  match v with
  | .obj fs => .obj (extra.foldl (fun acc e => setF acc e.1 e.2) fs)
  | _ => .obj (extra.foldl (fun acc e => setF acc e.1 e.2) [])

/-- Insertion-ordered JS `Map` as an association list. -/
def MapL := List (Json × Json)

/-- `Map.prototype.set`: replace in place if the key is present (keeping
the originally inserted key object), otherwise append. -/
def mapSet : List (Json × Json) → Json → Json → List (Json × Json)
  | [], k, v => [(k, v)]
  | (k', v') :: t, k, v =>
    if jbeq k' k then (k', v) :: t else (k', v') :: mapSet t k v

/-- `Map.prototype.has`. -/
def mapHas (m : List (Json × Json)) (k : Json) : Bool :=
  m.any fun e => jbeq e.1 k

/-- `Array.from(map.values())`. -/
def mapValues (m : List (Json × Json)) : List Json := m.map Prod.snd

/-- Numeric value of a list of decimal digits. -/
def digitsToNat (ds : List Char) : Nat :=
  ds.foldl (fun acc c => acc * 10 + (c.toNat - '0'.toNat)) 0

def pow10 (n : Nat) : Nat := (10 : Nat) ^ n

/-- `parseFloat` on the decimal shapes reachable in this code base
(optional digits, optional single `.`, digits; no sign/exponent occurs in
any string this code feeds to `parseFloat` after its own regex filtering).
`parseFloat(".")` is `NaN`. The value `d1.d2` is built as the single
rational `(d1d2) / 10^|d2|`. -/
def jsParseFloat (s : String) : Json :=
  let cs := s.toList.dropWhile (fun c => c = ' ' || c = '\t' || c = '\n' || c = '\r')
  let d1 := cs.takeWhile Char.isDigit
  let rest := cs.drop d1.length
  let d2 :=
    match rest with
    | '.' :: r => r.takeWhile Char.isDigit
    | _ => []
  if d1 = [] && d2 = [] then .nan
  else .num (mkRat (digitsToNat (d1 ++ d2)) (pow10 d2.length))

/-- `parseFloat(v)` for an embedded value: numbers (and `NaN`) coerce to
themselves; strings are parsed; other primitives stringify to words with
no leading digits, hence `NaN`. -/
def jsParseFloatVal : Json → Json
  | .num q => .num q
  | .nan => .nan
  | .str s => jsParseFloat s
  | _ => .nan

/-! ## Regular-expression engine -/

/-- Regex syntax: literals (case-sensitive and case-insensitive for the
`i` flag), character classes, concatenation, alternation, greedy/lazy
star, the single capturing group, and the word boundary `\b`. `any`
matches every character (all dotted patterns in the source carry the `s`
flag or use `[\s\S]`). -/
inductive RE where
  | eps : RE
  | any : RE
  | lit (c : Char) : RE
  | liti (c : Char) : RE
  | cls (p : Char → Bool) : RE
  | cat (r1 r2 : RE) : RE
  | alt (r1 r2 : RE) : RE
  | star (r : RE) (lazy : Bool) : RE
  | grp (r : RE) : RE
  | bnd : RE

/-- `\w` (ASCII word character). -/
def wordChar (c : Char) : Bool := c.isAlpha || c.isDigit || c = '_'

def lastCharOr (prev : Option Char) (cs : List Char) : Option Char :=
  match cs.getLast? with
  | some c => some c
  | none => prev

/-- Backtracking matcher. `mtch fuel re prev s` returns all ways `re` can
match a prefix of `s`, in backtracking priority order (greedy stars try
longer first, lazy stars shorter first, alternation tries the left branch
first), each as `(consumed, rest, capture)`. `prev` is the character just
before the current position (for `\b`). The fuel decreases on every
recursive call; `reFuel` below always provides enough for these patterns,
so exhaustion is unreachable in the evaluations done in this file. -/
def mtch : Nat → RE → Option Char → List Char →
    List (List Char × List Char × Option (List Char))
  | 0, _, _, _ => []
  | fuel + 1, re, prev, s =>
    match re with
    | .eps => [([], s, none)]
    | .any =>
      match s with
      | [] => []
      | c :: rest => [([c], rest, none)]
    | .lit a =>
      match s with
      | [] => []
      | c :: rest => if c = a then [([c], rest, none)] else []
    | .liti a =>
      match s with
      | [] => []
      | c :: rest => if c.toLower = a.toLower then [([c], rest, none)] else []
    | .cls p =>
      match s with
      | [] => []
      | c :: rest => if p c then [([c], rest, none)] else []
    | .bnd =>
      let before := match prev with | none => false | some c => wordChar c
      let after := match s with | [] => false | c :: _ => wordChar c
      if before ≠ after then [([], s, none)] else []
    | .cat r1 r2 =>
      (mtch fuel r1 prev s).flatMap fun o1 =>
        (mtch fuel r2 (lastCharOr prev o1.1) o1.2.1).map fun o2 =>
          (o1.1 ++ o2.1, o2.2.1, o2.2.2 <|> o1.2.2)
    | .alt r1 r2 => mtch fuel r1 prev s ++ mtch fuel r2 prev s
    | .star r lz =>
      let more := (mtch fuel r prev s).flatMap fun o1 =>
        if o1.1.isEmpty then [] else
        (mtch fuel (.star r lz) (lastCharOr prev o1.1) o1.2.1).map fun o2 =>
          (o1.1 ++ o2.1, o2.2.1, o2.2.2 <|> o1.2.2)
      if lz then ([], s, none) :: more else more ++ [([], s, none)]
    | .grp r => (mtch fuel r prev s).map fun o1 => (o1.1, o1.2.1, some o1.1)

def reSize : RE → Nat
  | .cat r1 r2 => reSize r1 + reSize r2 + 1
  | .alt r1 r2 => reSize r1 + reSize r2 + 1
  | .star r _ => reSize r + 1
  | .grp r => reSize r + 1
  | _ => 1

/-- Fuel that is always sufficient: the recursion depth of a match is
bounded by the pattern size times the number of characters consumed. -/
def reFuel (re : RE) (s : List Char) : Nat := 4 * (reSize re + 2) * (s.length + 2)

/-- Attempt a match at the current position; on failure fall through to
`next` (the scan continued one character further). -/
def execCoreStep (re : RE) (prev : Option Char) (s : List Char) (idx : Nat)
    (next : Option (Nat × List Char × List Char × Option (List Char))) :
    Option (Nat × List Char × List Char × Option (List Char)) :=
  match mtch (reFuel re s) re prev s with
  | o :: _ => some (idx, o.1, o.2.1, o.2.2)
  | [] => next

/-- One `exec` scan: try to match at each position from left to right (JS
regexes find the leftmost match). Returns
`(startIndex, consumed, restAfterMatch, capture)`. -/
def execCore (re : RE) : Option Char → List Char → Nat →
    Option (Nat × List Char × List Char × Option (List Char))
  | prev, [], idx => execCoreStep re prev [] idx none
  | prev, ch :: t, idx =>
    execCoreStep re prev (ch :: t) idx (execCore re (some ch) t (idx + 1))

/-- `re.exec(s)` / `s.match(re)` for a non-global regex: the first match. -/
def jsExec (re : RE) (s : List Char) :
    Option (Nat × List Char × List Char × Option (List Char)) :=
  execCore re none s 0

/-- All successive matches of a global regex, as `(consumed, capture)`
pairs, scanning from after each match (advancing one character past an
empty match, as `lastIndex` does). -/
def execAllGo : Nat → RE → Option Char → List Char → List (List Char × Option (List Char))
  | 0, _, _, _ => []
  | fuel + 1, re, prev, s =>
    match execCore re prev s 0 with
    | none => []
    | some (idx, c, rest, cap) =>
      if c = [] then
        (c, cap) ::
          (match s.drop idx with
           | [] => []
           | ch :: t => execAllGo fuel re (some ch) t)
      else (c, cap) :: execAllGo fuel re (lastCharOr prev c) rest

def execAll (re : RE) (s : List Char) : List (List Char × Option (List Char)) :=
  execAllGo (s.length + 1) re none s

/-- `s.match(re)` for a global regex: the list of matched substrings, or
`null` (here `none`) when there is no match. -/
def jsMatchG (s : String) (re : RE) : Option (List String) :=
  let ms := (execAll re s.toList).map (fun oc => String.mk oc.1)
  if ms = [] then none else some ms

/-- `s.replace(re, rep)` for a global regex with a plain replacement
string. -/
def replaceAllGo : Nat → RE → Option Char → List Char → List Char → List Char
  | 0, _, _, s, _ => s
  | fuel + 1, re, prev, s, rep =>
    match execCore re prev s 0 with
    | none => s
    | some (idx, c, rest, _) =>
      let kept := s.take idx
      if c = [] then
        kept ++ rep ++
          (match s.drop idx with
           | [] => []
           | ch :: t => ch :: replaceAllGo fuel re (some ch) t rep)
      else kept ++ rep ++ replaceAllGo fuel re (lastCharOr prev c) rest rep

def jsReplaceG (s : String) (re : RE) (rep : String) : String :=
  String.mk (replaceAllGo (s.toList.length + 1) re none s.toList rep.toList)

/-! ## Regex building blocks shared by the extraction patterns -/

def reSeq (rs : List RE) : RE := rs.foldr RE.cat RE.eps

/-- A case-insensitive literal word (each source pattern carries the `i`
flag). -/
def ciStr (s : String) : RE := reSeq (s.toList.map RE.liti)

def rePlus (r : RE) : RE := RE.cat r (RE.star r false)

/-- Greedy `r?`. -/
def reOpt (r : RE) : RE := RE.alt r RE.eps

/-- `\s`. -/
def wsChar (c : Char) : Bool :=
  c = ' ' || c = '\t' || c = '\n' || c = '\r' || c = '\x0b' || c = '\x0c'

def wsC : RE := RE.cls wsChar
def wsStar : RE := RE.star wsC false
def wsPlus : RE := rePlus wsC
def digitC : RE := RE.cls Char.isDigit

/-- The body of the numeric capture `\d+(?:\.\d+)?`. -/
def numBody : RE :=
  RE.cat (rePlus digitC) (reOpt (RE.cat (RE.lit '.') (rePlus digitC)))

/-- `(\d+(?:\.\d+)?)` — the one capturing group of every health pattern. -/
def numGroup : RE := RE.grp numBody

/-- `[:\-]?`. -/
def colonDashOpt : RE := reOpt (RE.cls fun c => c = ':' || c = '-')

/-- `(?:mg\/dl|mg\/dL|mgdl)?`. -/
def unitMgOpt : RE :=
  reOpt (RE.alt (ciStr "mg/dl") (RE.alt (ciStr "mg/dL") (ciStr "mgdl")))

/-- `(?:u\/l|U\/L|ul)?`. -/
def unitULOpt : RE :=
  reOpt (RE.alt (ciStr "u/l") (RE.alt (ciStr "U/L") (ciStr "ul")))

/-- `%?`. -/
def pctOpt : RE := reOpt (RE.lit '%')

/-! ## STRATEGY 1: `aggressivePatternExtraction` (extract.js lines 283-433) -/

/-- `/(?:total\s+)?cholesterol\s*(?:total)?\s*[:\-]?\s*(\d+(?:\.\d+)?)\s*(?:mg\/dl|mg\/dL|mgdl)?/gi` -/
def tcRe1 : RE := reSeq [reOpt (RE.cat (ciStr "total") wsPlus), ciStr "cholesterol",
  wsStar, reOpt (ciStr "total"), wsStar, colonDashOpt, wsStar, numGroup, wsStar, unitMgOpt]

/-- `/cholesterol\s*[:\-]?\s*(\d+(?:\.\d+)?)\s*(?:mg\/dl|mg\/dL|mgdl)?/gi` -/
def tcRe2 : RE := reSeq [ciStr "cholesterol", wsStar, colonDashOpt, wsStar, numGroup,
  wsStar, unitMgOpt]

/-- `/(\d+(?:\.\d+)?)\s*(?:mg\/dl|mg\/dL|mgdl)?\s*(?:total\s+)?cholesterol/gi` -/
def tcRe3 : RE := reSeq [numGroup, wsStar, unitMgOpt, wsStar,
  reOpt (RE.cat (ciStr "total") wsPlus), ciStr "cholesterol"]

/-- `/ldl\s*(?:cholesterol)?\s*[:\-]?\s*(\d+(?:\.\d+)?)\s*(?:mg\/dl|mg\/dL|mgdl)?/gi` -/
def ldlRe1 : RE := reSeq [ciStr "ldl", wsStar, reOpt (ciStr "cholesterol"), wsStar,
  colonDashOpt, wsStar, numGroup, wsStar, unitMgOpt]

/-- `/(?:cholesterol\s+)?ldl\s*[:\-]?\s*(\d+(?:\.\d+)?)\s*(?:mg\/dl|mg\/dL|mgdl)?/gi` -/
def ldlRe2 : RE := reSeq [reOpt (RE.cat (ciStr "cholesterol") wsPlus), ciStr "ldl",
  wsStar, colonDashOpt, wsStar, numGroup, wsStar, unitMgOpt]

/-- `/(\d+(?:\.\d+)?)\s*(?:mg\/dl|mg\/dL|mgdl)?\s*ldl/gi` -/
def ldlRe3 : RE := reSeq [numGroup, wsStar, unitMgOpt, wsStar, ciStr "ldl"]

/-- `/hdl\s*(?:cholesterol)?\s*[:\-]?\s*(\d+(?:\.\d+)?)\s*(?:mg\/dl|mg\/dL|mgdl)?/gi` -/
def hdlRe1 : RE := reSeq [ciStr "hdl", wsStar, reOpt (ciStr "cholesterol"), wsStar,
  colonDashOpt, wsStar, numGroup, wsStar, unitMgOpt]

/-- `/(?:cholesterol\s+)?hdl\s*[:\-]?\s*(\d+(?:\.\d+)?)\s*(?:mg\/dl|mg\/dL|mgdl)?/gi` -/
def hdlRe2 : RE := reSeq [reOpt (RE.cat (ciStr "cholesterol") wsPlus), ciStr "hdl",
  wsStar, colonDashOpt, wsStar, numGroup, wsStar, unitMgOpt]

/-- `/(\d+(?:\.\d+)?)\s*(?:mg\/dl|mg\/dL|mgdl)?\s*hdl/gi` -/
def hdlRe3 : RE := reSeq [numGroup, wsStar, unitMgOpt, wsStar, ciStr "hdl"]

/-- `/hba1c\s*[:\-]?\s*(\d+(?:\.\d+)?)\s*%?/gi` -/
def a1cRe1 : RE := reSeq [ciStr "hba1c", wsStar, colonDashOpt, wsStar, numGroup, wsStar, pctOpt]

/-- `/hemoglobin\s+a1c\s*[:\-]?\s*(\d+(?:\.\d+)?)\s*%?/gi` -/
def a1cRe2 : RE := reSeq [ciStr "hemoglobin", wsPlus, ciStr "a1c", wsStar, colonDashOpt,
  wsStar, numGroup, wsStar, pctOpt]

/-- `/a1c\s*[:\-]?\s*(\d+(?:\.\d+)?)\s*%?/gi` -/
def a1cRe3 : RE := reSeq [ciStr "a1c", wsStar, colonDashOpt, wsStar, numGroup, wsStar, pctOpt]

/-- `/(\d+(?:\.\d+)?)\s*%?\s*hba1c/gi` -/
def a1cRe4 : RE := reSeq [numGroup, wsStar, pctOpt, wsStar, ciStr "hba1c"]

/-- `/alt\s*(?:\(liver\s+enzyme\))?\s*[:\-]?\s*(\d+(?:\.\d+)?)\s*(?:u\/l|U\/L|ul)?/gi` -/
def altRe1 : RE := reSeq [ciStr "alt", wsStar,
  reOpt (reSeq [RE.lit '(', ciStr "liver", wsPlus, ciStr "enzyme", RE.lit ')']),
  wsStar, colonDashOpt, wsStar, numGroup, wsStar, unitULOpt]

/-- `/alanine\s+aminotransferase\s*[:\-]?\s*(\d+(?:\.\d+)?)\s*(?:u\/l|U\/L|ul)?/gi` -/
def altRe2 : RE := reSeq [ciStr "alanine", wsPlus, ciStr "aminotransferase", wsStar,
  colonDashOpt, wsStar, numGroup, wsStar, unitULOpt]

/-- `/liver\s+enzyme\s*alt\s*[:\-]?\s*(\d+(?:\.\d+)?)\s*(?:u\/l|U\/L|ul)?/gi` -/
def altRe3 : RE := reSeq [ciStr "liver", wsPlus, ciStr "enzyme", wsStar, ciStr "alt",
  wsStar, colonDashOpt, wsStar, numGroup, wsStar, unitULOpt]

/-- `/(\d+(?:\.\d+)?)\s*(?:u\/l|U\/L|ul)?\s*alt/gi` -/
def altRe4 : RE := reSeq [numGroup, wsStar, unitULOpt, wsStar, ciStr "alt"]

/-- `/ast\s*(?:\(liver\s+enzyme\))?\s*[:\-]?\s*(\d+(?:\.\d+)?)\s*(?:u\/l|U\/L|ul)?/gi` -/
def astRe1 : RE := reSeq [ciStr "ast", wsStar,
  reOpt (reSeq [RE.lit '(', ciStr "liver", wsPlus, ciStr "enzyme", RE.lit ')']),
  wsStar, colonDashOpt, wsStar, numGroup, wsStar, unitULOpt]

/-- `/aspartate\s+aminotransferase\s*[:\-]?\s*(\d+(?:\.\d+)?)\s*(?:u\/l|U\/L|ul)?/gi` -/
def astRe2 : RE := reSeq [ciStr "aspartate", wsPlus, ciStr "aminotransferase", wsStar,
  colonDashOpt, wsStar, numGroup, wsStar, unitULOpt]

/-- `/liver\s+enzyme\s*ast\s*[:\-]?\s*(\d+(?:\.\d+)?)\s*(?:u\/l|U\/L|ul)?/gi` -/
def astRe3 : RE := reSeq [ciStr "liver", wsPlus, ciStr "enzyme", wsStar, ciStr "ast",
  wsStar, colonDashOpt, wsStar, numGroup, wsStar, unitULOpt]

/-- `/(\d+(?:\.\d+)?)\s*(?:u\/l|U\/L|ul)?\s*ast/gi` -/
def astRe4 : RE := reSeq [numGroup, wsStar, unitULOpt, wsStar, ciStr "ast"]

/-- `/creatinine\s*[:\-]?\s*(\d+(?:\.\d+)?)\s*(?:mg\/dl|mg\/dL|mgdl)?/gi` -/
def creRe1 : RE := reSeq [ciStr "creatinine", wsStar, colonDashOpt, wsStar, numGroup,
  wsStar, unitMgOpt]

/-- `/(\d+(?:\.\d+)?)\s*(?:mg\/dl|mg\/dL|mgdl)?\s*creatinine/gi` -/
def creRe2 : RE := reSeq [numGroup, wsStar, unitMgOpt, wsStar, ciStr "creatinine"]

/-- One entry of the `patterns` table of `aggressivePatternExtraction`. -/
structure PatternEntry where
  name : String
  category : String
  patterns : List RE
  unit : String
  normalRange : String

/-- The `patterns` table (extract.js lines 291-378), in source order. -/
def healthPatterns : List PatternEntry :=
  [ { name := "Total Cholesterol", category := "Cardiovascular",
      patterns := [tcRe1, tcRe2, tcRe3], unit := "mg/dL", normalRange := "<200 mg/dL" },
    { name := "LDL Cholesterol", category := "Cardiovascular",
      patterns := [ldlRe1, ldlRe2, ldlRe3], unit := "mg/dL", normalRange := "<100 mg/dL" },
    { name := "HDL Cholesterol", category := "Cardiovascular",
      patterns := [hdlRe1, hdlRe2, hdlRe3], unit := "mg/dL", normalRange := ">40 mg/dL" },
    { name := "HbA1c", category := "Metabolic",
      patterns := [a1cRe1, a1cRe2, a1cRe3, a1cRe4], unit := "%", normalRange := "<5.7%" },
    { name := "ALT", category := "Liver Function",
      patterns := [altRe1, altRe2, altRe3, altRe4], unit := "U/L", normalRange := "7-55 U/L" },
    { name := "AST", category := "Liver Function",
      patterns := [astRe1, astRe2, astRe3, astRe4], unit := "U/L", normalRange := "8-48 U/L" },
    { name := "Creatinine", category := "Kidney Function",
      patterns := [creRe1, creRe2], unit := "mg/dL", normalRange := "0.7-1.3 mg/dL" } ]

/-- The `while ((match = regex.exec(text)))` loop body: successive global
matches until one whose first group `match[1]` is truthy (a non-empty
capture); that capture is the extracted value. -/
def firstTruthyCap (re : RE) (s : List Char) : Option (List Char) :=
  (execAll re s).findSome? fun oc =>
    match oc.2 with
    | some v => if v ≠ [] then some v else none
    | none => none

/-- The sequential status-determination `if` chain (lines 403-408),
starting from `'Normal'`. Comparisons against `NaN` are false. -/
def patternStatus (name : String) (numericValue : Json) : String :=
  let gt : ℚ → Bool := fun cut =>
    match numericValue with
    | .num q => q > cut
    | _ => false
  if name = "Total Cholesterol" && gt 200 then "High"
  else if name = "LDL Cholesterol" && gt 100 then "High"
  else if name = "HbA1c" && gt (mkRat 57 10) then "High"
  else if name = "ALT" && gt 55 then "High"
  else if name = "AST" && gt 48 then "High"
  else if name = "Creatinine" && gt (mkRat 13 10) then "High"
  else "Normal"

/-- The record pushed for a successful pattern match (lines 410-418). -/
def mkPatternObj (e : PatternEntry) (value : String) : Json :=
  .obj [("category", .str e.category), ("parameter", .str e.name),
        ("value", .str value), ("unit", .str e.unit),
        ("referenceRange", .str e.normalRange),
        ("status", .str (patternStatus e.name (jsParseFloat value))),
        ("date", .str "2025-09-09")]

/-- For one table entry, the first of its ordered regexes that yields a
truthy capture (the inner `for (const regex of pattern.patterns)` loop
with its `break`s). -/
def extractCap (e : PatternEntry) (s : List Char) : Option (List Char) :=
  e.patterns.findSome? fun re => firstTruthyCap re s

/-- STRATEGY 1 (lines 283-433): try every entry of the fixed table in
order; at most one record per parameter name (the `found` set). -/
def aggressivePatternExtraction (text : String) : List Json :=
  let s := text.toList
  (healthPatterns.foldl
    (fun acc e =>
      if acc.2.contains e.name then acc
      else
        match extractCap e s with
        | some v => (acc.1 ++ [mkPatternObj e (String.mk v)], acc.2 ++ [e.name])
        | none => acc)
    (([], []) : List Json × List String)).1

/-! ## STRATEGY 3: `fuzzyTextExtraction` (extract.js lines 496-547) -/

/-- One entry of the `healthTerms` table. -/
structure HealthTerm where
  term : String
  name : String
  category : String
  unit : String

/-- The `healthTerms` table (lines 500-509), in source order. -/
def healthTerms : List HealthTerm :=
  [ { term := "cholesterol", name := "Total Cholesterol", category := "Cardiovascular", unit := "mg/dL" },
    { term := "ldl", name := "LDL Cholesterol", category := "Cardiovascular", unit := "mg/dL" },
    { term := "hdl", name := "HDL Cholesterol", category := "Cardiovascular", unit := "mg/dL" },
    { term := "hba1c", name := "HbA1c", category := "Metabolic", unit := "%" },
    { term := "a1c", name := "HbA1c", category := "Metabolic", unit := "%" },
    { term := "alt", name := "ALT", category := "Liver Function", unit := "U/L" },
    { term := "ast", name := "AST", category := "Liver Function", unit := "U/L" },
    { term := "creatinine", name := "Creatinine", category := "Kidney Function", unit := "mg/dL" } ]

/-- Case-insensitive "starts with". -/
def ciStarts : List Char → List Char → Bool
  | [], _ => true
  | _ :: _, [] => false
  | a :: as, b :: bs => (a.toLower == b.toLower) && ciStarts as bs

/-- `text.search(new RegExp(term, 'gi'))` for the literal terms of the
table: index of the first case-insensitive occurrence, `none` for `-1`. -/
def searchCI (term : List Char) : List Char → Nat → Option Nat
  | [], idx => if ciStarts term [] then some idx else none
  | s@(_ :: t), idx => if ciStarts term s then some idx else searchCI term t (idx + 1)

/-- `snippet.match(/(\d+(?:\.\d+)?)/)`: first numeric token of the
snippet. -/
def firstNumCap (s : List Char) : Option (List Char) :=
  match jsExec numGroup s with
  | some (_, _, _, some v) => some v
  | _ => none

/-- The record pushed by the fuzzy strategy (lines 532-540). -/
def mkFuzzyObj (item : HealthTerm) (value : String) : Json :=
  .obj [("category", .str item.category), ("parameter", .str item.name),
        ("value", .str value), ("unit", .str item.unit),
        ("referenceRange", .str "Check with healthcare provider"),
        ("status", .str "Unknown"), ("date", .str "2025-09-09")]

/-- STRATEGY 3 (lines 496-547): for each known term, look at the window
`[max(0, i-25), min(len, i+term.length+25))` around its first occurrence
and take the first number found there. -/
def fuzzyTextExtraction (text : String) : List Json :=
  let s := text.toList
  (healthTerms.foldl
    (fun acc item =>
      if acc.2.contains item.name then acc
      else
        match searchCI item.term.toList s 0 with
        | none => acc
        | some ix =>
          let start := ix - 25
          let stop := min s.length (ix + item.term.length + 25)
          let snippet := (s.take stop).drop start
          match firstNumCap snippet with
          | some v => (acc.1 ++ [mkFuzzyObj item (String.mk v)], acc.2 ++ [item.name])
          | none => acc)
    (([], []) : List Json × List String)).1

/-! ## STRATEGY 2: `smartAIExtraction` (extract.js lines 436-493) -/

/-- `'\x7b'` and `'\x7d'` (written via codepoints to keep brace pairing in
this file simple). -/
def lbrace : Char := Char.ofNat 123
def rbrace : Char := Char.ofNat 125

def lbrack : Char := Char.ofNat 91
def rbrack : Char := Char.ofNat 93

/-- `/\{[\s\S]*\}/`: a greedy brace-to-brace span. -/
def jsonSpanRE : RE := reSeq [RE.lit lbrace, RE.star RE.any false, RE.lit rbrace]

/-- `response.match(/\{[\s\S]*\}/)`: the first such span (from the first
`{` to the last `}`), or `none`. -/
def jsonSpan (s : String) : Option String :=
  match jsExec jsonSpanRE s.toList with
  | some (_, c, _, _) => some (String.mk c)
  | none => none

def jsonWs (c : Char) : Bool := c = ' ' || c = '\t' || c = '\n' || c = '\r'

def hexVal (c : Char) : Option Nat :=
  if '0' ≤ c ∧ c ≤ '9' then some (c.toNat - '0'.toNat)
  else if 'a' ≤ c ∧ c ≤ 'f' then some (c.toNat - 'a'.toNat + 10)
  else if 'A' ≤ c ∧ c ≤ 'F' then some (c.toNat - 'A'.toNat + 10)
  else none

/-- JSON string body after the opening quote: returns the decoded
characters and the remainder after the closing quote. -/
def parseJStr : Nat → List Char → Option (List Char × List Char)
  | 0, _ => none
  | _ + 1, [] => none
  | fuel + 1, c :: rest =>
    if c = '"' then some ([], rest)
    else if c = '\\' then
      match rest with
      | [] => none
      | e :: rest2 =>
        let dec : Option Char :=
          if e = '"' then some '"'
          else if e = '\\' then some '\\'
          else if e = '/' then some '/'
          else if e = 'n' then some '\n'
          else if e = 't' then some '\t'
          else if e = 'r' then some '\r'
          else if e = 'b' then some (Char.ofNat 8)
          else if e = 'f' then some (Char.ofNat 12)
          else none
        match dec with
        | none =>
          if e = 'u' then
            match rest2 with
            | h1 :: h2 :: h3 :: h4 :: rest3 =>
              match hexVal h1, hexVal h2, hexVal h3, hexVal h4 with
              | some a, some b, some c', some d =>
                match parseJStr fuel rest3 with
                | some (cs, r) => some (Char.ofNat (((a * 16 + b) * 16 + c') * 16 + d) :: cs, r)
                | none => none
              | _, _, _, _ => none
            | _ => none
          else none
        | some ch =>
          match parseJStr fuel rest2 with
          | some (cs, r) => some (ch :: cs, r)
          | none => none
    else
      match parseJStr fuel rest with
      | some (cs, r) => some (c :: cs, r)
      | none => none

/-- JSON number: `-? digits (. digits)? ([eE][+-]? digits)?`, built as one
rational `±(d1d2·10^e⁺) / (10^|d2|·10^e⁻)`. -/
def parseJNum (cs : List Char) : Option (ℚ × List Char) :=
  let (neg, cs1) : Bool × List Char :=
    match cs with
    | '-' :: t => (true, t)
    | _ => (false, cs)
  let d1 := cs1.takeWhile Char.isDigit
  if d1 = [] then none
  else
    let cs2 := cs1.drop d1.length
    let fracRes : Option (List Char × List Char) :=
      match cs2 with
      | '.' :: t =>
        let d2 := t.takeWhile Char.isDigit
        if d2 = [] then none else some (d2, t.drop d2.length)
      | _ => some ([], cs2)
    match fracRes with
    | none => none
    | some (d2, cs3) =>
      let mkVal : Bool → Nat → ℚ := fun eneg e =>
        let n : Int := (digitsToNat (d1 ++ d2) : Int) * (if eneg then 1 else (10 : Int) ^ e)
        let den : Nat := pow10 d2.length * (if eneg then pow10 e else 1)
        let q := mkRat n den
        if neg then -q else q
      match cs3 with
      | 'e' :: t | 'E' :: t =>
        let (esign, t1) : Bool × List Char :=
          match t with
          | '-' :: t' => (true, t')
          | '+' :: t' => (false, t')
          | _ => (false, t)
        let ed := t1.takeWhile Char.isDigit
        if ed = [] then none
        else some (mkVal esign (digitsToNat ed), t1.drop ed.length)
      | _ => some (mkVal false 0, cs3)

def startsWithStr : List Char → List Char → Bool
  | [], _ => true
  | _ :: _, [] => false
  | a :: as, b :: bs => (a == b) && startsWithStr as bs

mutual

/-- One JSON value; returns the value and the unconsumed remainder. The
fuel decreases on every recursive call (4 per input character is always
sufficient, see `jsonParse`). -/
def parseJVal : Nat → List Char → Option (Json × List Char)
  | 0, _ => none
  | fuel + 1, cs =>
    let cs := cs.dropWhile jsonWs
    match cs with
    | [] => none
    | c :: rest =>
      if c = '"' then
        match parseJStr (rest.length + 1) rest with
        | some (body, r) => some (.str (String.mk body), r)
        | none => none
      else if c = lbrace then parseJObj fuel (rest.dropWhile jsonWs) []
      else if c = lbrack then parseJArr fuel (rest.dropWhile jsonWs) []
      else if startsWithStr "true".toList cs then some (.bool true, cs.drop 4)
      else if startsWithStr "false".toList cs then some (.bool false, cs.drop 5)
      else if startsWithStr "null".toList cs then some (.null, cs.drop 4)
      else
        match parseJNum cs with
        | some (q, r) => some (.num q, r)
        | none => none

/-- Object members after `{` (with leading whitespace stripped); `acc`
holds the members parsed so far. -/
def parseJObj : Nat → List Char → List (String × Json) → Option (Json × List Char)
  | 0, _, _ => none
  | fuel + 1, cs, acc =>
    match cs with
    | [] => none
    | c :: rest =>
      if c = rbrace then
        if acc.isEmpty then some (.obj [], rest) else none
      else if c = '"' then
        match parseJStr (rest.length + 1) rest with
        | none => none
        | some (key, r1) =>
          match r1.dropWhile jsonWs with
          | ':' :: r2 =>
            match parseJVal fuel r2 with
            | none => none
            | some (v, r3) =>
              match r3.dropWhile jsonWs with
              | ',' :: r4 => parseJObj fuel (r4.dropWhile jsonWs) (acc ++ [(String.mk key, v)])
              | r4 =>
                match r4 with
                | cl :: r5 =>
                  if cl = rbrace then some (.obj (acc ++ [(String.mk key, v)]), r5) else none
                | [] => none
          | _ => none
      else none

/-- Array elements after `[` (with leading whitespace stripped). -/
def parseJArr : Nat → List Char → List Json → Option (Json × List Char)
  | 0, _, _ => none
  | fuel + 1, cs, acc =>
    match cs with
    | [] => none
    | c :: rest =>
      if c = rbrack then
        if acc.isEmpty then some (.arr [], rest) else none
      else
        match parseJVal fuel cs with
        | none => none
        | some (v, r1) =>
          match r1.dropWhile jsonWs with
          | ',' :: r2 => parseJArr fuel (r2.dropWhile jsonWs) (acc ++ [v])
          | cl :: r3 => if cl = rbrack then some (.arr (acc ++ [v]), r3) else none
          | [] => none

end

/-- `JSON.parse`: a full parse of the string, `none` on any syntax
error. -/
def jsonParse (s : String) : Option Json :=
  match parseJVal (4 * (s.toList.length + 2)) s.toList with
  | some (v, rest) => if rest.dropWhile jsonWs = [] then some v else none
  | none => none

/-- The behaviour of the external LLM collaborator for one call of
`env.AI.run`: either the call throws, or it resolves to a result value. -/
inductive AIBehavior where
  | fail (msg : String)
  | respond (result : Json)

/-- The body of the `try` block of `smartAIExtraction` (lines 437-487),
with each JS `throw` site made explicit: a failed `env.AI.run`, a
`.match` call on a non-string truthy `response.response` (TypeError), and
a `JSON.parse` syntax error. -/
def smartAIBody (_text : String) (b : AIBehavior) : Except String Json :=
  match b with
  | .fail msg => .error msg
  | .respond v =>
    let r := jget v "response"
    if ¬ truthy r then .ok (.arr [])
    else
      match r with
      | .str s =>
        match jsonSpan s with
        | none => .ok (.arr [])
        | some sp =>
          match jsonParse sp with
          | none => .error "JSON.parse: unexpected token"
          | some data => .ok (jsOr (jget data "healthParameters") (.arr []))
      | _ => .error "response.response.substring is not a function"

/-- STRATEGY 2 (lines 436-493): the `try`/`catch` wrapper — any internal
error is caught and becomes the empty candidate list. -/
def smartAIExtraction (text : String) (b : AIBehavior) : Json :=
  match smartAIBody text b with
  | .ok v => v
  | .error _ => .arr []

/-! ## STRATEGY 4: `intelligentCombination` (extract.js lines 550-593) -/

/-- Merge of the three strategy outputs with fixed priority
Pattern > AI > Fuzzy over an insertion-ordered map keyed by
`param.parameter`: pattern results are set unconditionally, AI and fuzzy
results only when the name is not already resolved. -/
def intelligentCombination (patternResults aiResults fuzzyResults : List Json) :
    List Json :=
  let combined : List (Json × Json) := []
  let combined := patternResults.foldl
    (fun m param =>
      mapSet m (jget param "parameter") (jspread param [("source", .str "pattern")]))
    combined
  let combined := aiResults.foldl
    (fun m param =>
      if mapHas m (jget param "parameter") then m
      else
        mapSet m (jget param "parameter")
          (jspread param
            [("source", .str "ai"),
             ("referenceRange", jsOr (jget param "referenceRange")
                (.str "Check with healthcare provider")),
             ("status", jsOr (jget param "status") (.str "Unknown")),
             ("date", jsOr (jget param "date") (.str "2025-09-09"))]))
    combined
  let combined := fuzzyResults.foldl
    (fun m param =>
      if mapHas m (jget param "parameter") then m
      else mapSet m (jget param "parameter") (jspread param [("source", .str "fuzzy")]))
    combined
  mapValues combined

/-! ## `advancedDateDetection` (extract.js lines 596-619) -/

/-- `[-\/]`. -/
def dateSep : RE := RE.cls fun c => c = '-' || c = '/'

/-- `\d{1,2}` (greedy: prefers two digits). -/
def d12 : RE := RE.cat digitC (reOpt digitC)

/-- `\d{4}`. -/
def d4 : RE := reSeq [digitC, digitC, digitC, digitC]

/-- `(\d{4}[-\/]\d{1,2}[-\/]\d{1,2})`. -/
def ymdGroup : RE := RE.grp (reSeq [d4, dateSep, d12, dateSep, d12])

/-- `(\d{1,2}[-\/]\d{1,2}[-\/]\d{4})`. -/
def dmyGroup : RE := RE.grp (reSeq [d12, dateSep, d12, dateSep, d4])

/-- `(?:test\s+date|collection\s+date|sample\s+date|report\s+date|date)`. -/
def dateKeyword : RE :=
  RE.alt (reSeq [ciStr "test", wsPlus, ciStr "date"])
    (RE.alt (reSeq [ciStr "collection", wsPlus, ciStr "date"])
      (RE.alt (reSeq [ciStr "sample", wsPlus, ciStr "date"])
        (RE.alt (reSeq [ciStr "report", wsPlus, ciStr "date"]) (ciStr "date"))))

/-- The four `datePatterns` (lines 597-602), in source order. -/
def datePatterns : List RE :=
  [ reSeq [dateKeyword, wsStar, colonDashOpt, wsStar, ymdGroup],
    reSeq [dateKeyword, wsStar, colonDashOpt, wsStar, dmyGroup],
    reSeq [RE.bnd, ymdGroup, RE.bnd],
    reSeq [RE.bnd, dmyGroup, RE.bnd] ]

def isLeapYear (y : Nat) : Bool :=
  (y % 4 = 0 && y % 100 ≠ 0) || y % 400 = 0

def daysInMonth (y m : Nat) : Nat :=
  if m = 2 then (if isLeapYear y then 29 else 28)
  else if m = 4 || m = 6 || m = 9 || m = 11 then 30
  else 31

def pad2 (n : Nat) : String := if n < 10 then "0" ++ toString n else toString n

/-- Split a matched date string on its `-`/`/` separators. -/
def dateFields (s : List Char) : List (List Char) :=
  let rec go : List Char → List Char → List (List Char)
    | [], cur => [cur.reverse]
    | c :: t, cur =>
      if c = '-' || c = '/' then cur.reverse :: go t []
      else go t (c :: cur)
  go s []

/-- Modelled from the host: `new Date(s)` followed by
`date.toISOString().split('T')[0]`, restricted to the numeric
`YYYY-MM-DD`-like and `MM-DD-YYYY`-like shapes that the four date regexes
can produce as `match[1]` (the runtime is UTC, so the ISO day equals the
parsed day). Two-part numeric dates are month-first; out-of-range months
or days give an Invalid Date (`none`). Full matches of the keyworded
patterns (which contain the keyword text) do not reach this function in
any theorem below. -/
def jsDateNorm (s : String) : Option String :=
  match dateFields s.toList with
  | [a, b, c] =>
    let a' := digitsToNat a
    let b' := digitsToNat b
    let c' := digitsToNat c
    if a.length = 4 then
      -- YYYY-MM-DD
      if 1 ≤ b' ∧ b' ≤ 12 ∧ 1 ≤ c' ∧ c' ≤ daysInMonth a' b' then
        some (toString a' ++ "-" ++ pad2 b' ++ "-" ++ pad2 c')
      else none
    else if c.length = 4 then
      -- MM-DD-YYYY (month-first)
      if 1 ≤ a' ∧ a' ≤ 12 ∧ 1 ≤ b' ∧ b' ≤ daysInMonth c' a' then
        some (toString c' ++ "-" ++ pad2 a' ++ "-" ++ pad2 b')
      else none
    else none
  | _ => none

/-- `advancedDateDetection` (lines 596-619): for each pattern, take
`match[1]` of `text.match(pattern)` — for these global regexes that is
the SECOND full match, not a capture group — and return its normalized
date if it parses; otherwise fall through to the next pattern, finally
`null`. -/
def advancedDateDetection (text : String) : Option String :=
  datePatterns.findSome? fun p =>
    match jsMatchG text p with
    | none => none
    | some ms =>
      match ms.get? 1 with
      | none => none
      | some m1 => if m1 ≠ "" then jsDateNorm m1 else none

/-! ## PDF text acquisition (`advancedPDFExtraction`, extract.js 140-280) -/

def isAlnum (c : Char) : Bool := c.isAlpha || c.isDigit

/-- `/\(([^)]+)\)/g`. -/
def parenRE : RE :=
  reSeq [RE.lit '(', RE.grp (rePlus (RE.cls fun c => c ≠ ')')), RE.lit ')']

/-- `/\(([^)]*)\)\s*Tj/g`. -/
def tjRE : RE :=
  reSeq [RE.lit '(', RE.grp (RE.star (RE.cls fun c => c ≠ ')') false), RE.lit ')',
    wsStar, RE.lit 'T', RE.lit 'j']

/-- `/\(([^)]*)\)/` (non-global, used on one `(...) Tj` command). -/
def parenStarRE : RE :=
  reSeq [RE.lit '(', RE.grp (RE.star (RE.cls fun c => c ≠ ')') false), RE.lit ')']

/-- `/BT(.*?)ET/gs` (case-sensitive: no `i` flag). -/
def btetRE : RE :=
  reSeq [RE.lit 'B', RE.lit 'T', RE.grp (RE.star RE.any true), RE.lit 'E', RE.lit 'T']

/-- `/stream(.*?)endstream/gs`. -/
def streamRE : RE :=
  reSeq [ciLit "stream", RE.grp (RE.star RE.any true), ciLit "endstream"]
  where ciLit (s : String) : RE := reSeq (s.toList.map RE.lit)

/-- `[A-Za-z\s\d.,;:()\-\/\%]`. -/
def pdfBodyChar (c : Char) : Bool :=
  c.isAlpha || wsChar c || c.isDigit ||
  c = '.' || c = ',' || c = ';' || c = ':' || c = '(' || c = ')' ||
  c = '-' || c = '/' || c = '%'

/-- `/[A-Za-z][A-Za-z\s\d.,;:()\-\/\%]{5,}/g`. -/
def streamReadableRE : RE :=
  reSeq ([RE.cls Char.isAlpha] ++ List.replicate 5 (RE.cls pdfBodyChar) ++
    [RE.star (RE.cls pdfBodyChar) false])

/-- `/[A-Za-z][A-Za-z\s\d.,;:()\-\/\%]{15,}/g`. -/
def rawTextRE : RE :=
  reSeq ([RE.cls Char.isAlpha] ++ List.replicate 15 (RE.cls pdfBodyChar) ++
    [RE.star (RE.cls pdfBodyChar) false])

/-- `/<([0-9A-Fa-f\s]+)>/g`. -/
def hexRE : RE :=
  reSeq [RE.lit '<', RE.grp (rePlus (RE.cls fun c => (hexVal c).isSome || wsChar c)),
    RE.lit '>']

/-- Method 1 (lines 205-213): parenthesised literals of length ≥ 1
containing an alphanumeric character. -/
def extractParenthesesText (pdfString : String) : String :=
  match jsMatchG pdfString parenRE with
  | none => ""
  | some ms =>
    " ".intercalate
      ((ms.map fun m => String.mk ((m.toList.drop 1).dropLast)).filter
        fun t => t.length > 0 && t.toList.any isAlnum)

/-- Method 2 (lines 215-232): `(...) Tj` text commands inside `BT ... ET`
blocks. -/
def extractBTETText (pdfString : String) : String :=
  match jsMatchG pdfString btetRE with
  | none => ""
  | some blocks =>
    blocks.foldl
      (fun text block =>
        match jsMatchG block tjRE with
        | none => text
        | some cmds =>
          cmds.foldl
            (fun t cmd =>
              match jsExec parenStarRE cmd.toList with
              | some (_, _, _, some m1) =>
                if m1 ≠ [] then t ++ String.mk m1 ++ " " else t
              | _ => t)
            text)
      ""

def dropWhileEnd (p : Char → Bool) (cs : List Char) : List Char :=
  (cs.reverse.dropWhile p).reverse

/-- `block.replace(/^stream\s*|\s*endstream$/g, '')` for a full
`stream...endstream` match. -/
def stripStreamMarkers (block : String) : List Char :=
  let inner := block.toList.drop 6
  dropWhileEnd wsChar ((inner.take (inner.length - 9)).dropWhile wsChar)

/-- Method 3 (lines 234-247): readable runs inside `stream ... endstream`
content. -/
def extractStreamText (pdfString : String) : String :=
  match jsMatchG pdfString streamRE with
  | none => ""
  | some blocks =>
    blocks.foldl
      (fun text block =>
        match jsMatchG (String.mk (stripStreamMarkers block)) streamReadableRE with
        | none => text
        | some readable => text ++ " ".intercalate readable ++ " ")
      ""

/-- Method 4 (lines 249-252): raw printable runs of length ≥ 16. -/
def extractRawText (pdfString : String) : String :=
  match jsMatchG pdfString rawTextRE with
  | none => ""
  | some ms => " ".intercalate ms

def hexKeepChar (c : Char) : Bool :=
  isAlnum c || wsChar c || c = '.' || c = ',' || c = ';' || c = ':' ||
  c = '(' || c = ')' || c = '-' || c = '/' || c = '%'

def decodeHexPairs : List Char → List Char
  | h1 :: h2 :: rest =>
    (match hexVal h1, hexVal h2 with
     | some a, some b =>
       let c := Char.ofNat (a * 16 + b)
       if hexKeepChar c then c :: decodeHexPairs rest else decodeHexPairs rest
     | _, _ => decodeHexPairs rest)
  | _ => []

/-- Method 5 (lines 254-280): `<hex>` spans decoded pairwise, keeping only
printable characters, used when more than 3 survive. -/
def extractHexText (pdfString : String) : String :=
  match jsMatchG pdfString hexRE with
  | none => ""
  | some ms =>
    ms.foldl
      (fun text m =>
        let hex := ((m.toList.drop 1).dropLast).filter (fun c => ¬ wsChar c)
        if hex.length % 2 = 0 then
          let decoded := decodeHexPairs hex
          if decoded.length > 3 then text ++ String.mk decoded ++ " " else text
        else text)
      ""

/-- `/\\[rnt]/g`. -/
def escRE : RE := reSeq [RE.lit '\\', RE.cls fun c => c = 'r' || c = 'n' || c = 't']

/-- `/\s+/g`. -/
def wsPlusRE : RE := wsPlus

/-- `/[^\w\s\d.,;:()\-\/\%<>=]/g`. -/
def junkRE : RE := RE.cls fun c =>
  ¬ (wordChar c || wsChar c || c.isDigit || c = '.' || c = ',' || c = ';' ||
     c = ':' || c = '(' || c = ')' || c = '-' || c = '/' || c = '%' ||
     c = '<' || c = '>' || c = '=')

def jsTrim (s : String) : String :=
  String.mk (dropWhileEnd wsChar (s.toList.dropWhile wsChar))

/-- `advancedPDFExtraction` (lines 141-202) on the byte string of the
upload (bytes are read as one char each via `String.fromCharCode`):
concatenate the five heuristics' outputs (those longer than 10), then
clean up. Returns `(text, methods)`. -/
def advancedPDFExtraction (pdfString : String) : String × List String :=
  let step := fun (acc : String × List String) (t : String) (name : String) =>
    if t.length > 10 then (acc.1 ++ t ++ " ", acc.2 ++ [name]) else acc
  let acc := step ("", []) (extractParenthesesText pdfString) "parentheses"
  let acc := step acc (extractBTETText pdfString) "bt_et"
  let acc := step acc (extractStreamText pdfString) "streams"
  let acc := step acc (extractRawText pdfString) "raw"
  let acc := step acc (extractHexText pdfString) "hex"
  let cleaned :=
    jsTrim (jsReplaceG (jsReplaceG (jsReplaceG acc.1 escRE " ") wsPlusRE " ") junkRE " ")
  (cleaned, acc.2)

/-! ## The request pipeline (`onRequestPost`, extract.js lines 1-138) -/

/-- The successful `extractedData` payload (lines 91-102, the fields the
claims are about). -/
structure ExtractSuccess where
  healthParameters : List Json
  documentType : String
  testDate : String
  totalParametersFound : Nat

/-- Line 49: `Text extraction failed. Only extracted N characters`. -/
def insufficientMsg (n : Nat) : String :=
  "Text extraction failed. Only extracted " ++ toString n ++ " characters"

/-- Lines 75-85: the `COMPLETE EXTRACTION FAILURE` message, carrying the
acquired text and each strategy's candidate count. -/
def noParamsMsg (text : String) (patternCount aiCount fuzzyCount : Nat) : String :=
  "COMPLETE EXTRACTION FAILURE\n\nEXTRACTED TEXT (" ++ toString text.length ++
  " chars):\n\x22" ++ text ++ "\x22\n\nSTRATEGY RESULTS:\n- Pattern matching: " ++
  toString patternCount ++ " parameters\n- AI extraction: " ++ toString aiCount ++
  " parameters  \n- Fuzzy analysis: " ++ toString fuzzyCount ++
  " parameters\n\nThis document may not contain recognizable health parameters."

/-- Line 89: `advancedDateDetection(textToProcess) || '2025-09-09'`. -/
def testDateOf (text : String) : String :=
  match advancedDateDetection text with
  | some d => if d ≠ "" then d else "2025-09-09"
  | none => "2025-09-09"

/-- The `try` body of `onRequestPost` from the point where the acquired
text is in hand (line 48 onward), with every `throw` made explicit. The
LLM call is the `ai` parameter. A non-array AI result would make
`aiResults.forEach` throw inside `intelligentCombination`; that TypeError
is modelled at the coercion point. -/
def processBody (textToProcess : String) (ai : AIBehavior) :
    Except String ExtractSuccess :=
  if textToProcess = "" ∨ textToProcess.length < 10 then
    .error (insufficientMsg textToProcess.length)
  else
    let patternResults := aggressivePatternExtraction textToProcess
    let aiJson := smartAIExtraction textToProcess ai
    match aiJson with
    | .arr aiResults =>
      -- `fuzzyTextExtraction` is pure, so running it inside this branch is
      -- observationally the order of the source (strategies 1-3, then merge).
      let fuzzyResults := fuzzyTextExtraction textToProcess
      let finalResults := intelligentCombination patternResults aiResults fuzzyResults
      if finalResults.length = 0 then
        .error (noParamsMsg textToProcess patternResults.length aiResults.length
          fuzzyResults.length)
      else
        .ok { healthParameters := finalResults, documentType := "Lab Results",
              testDate := testDateOf textToProcess,
              totalParametersFound := finalResults.length }
    | _ => .error "aiResults.forEach is not a function"

/-- The HTTP response of `onRequestPost` (subset of fields the claims are
about). A success is HTTP 200 with the extracted data; the `catch` block
(lines 125-137) turns any thrown error into `success:false` with HTTP
400 and the error message. -/
structure ExtractResponse where
  success : Bool
  status : Nat
  error : Option String
  healthParameters : List Json
  testDate : Option String

def processExtract (textToProcess : String) (ai : AIBehavior) : ExtractResponse :=
  match processBody textToProcess ai with
  | .ok s =>
    { success := true, status := 200, error := none,
      healthParameters := s.healthParameters, testDate := some s.testDate }
  | .error e =>
    { success := false, status := 400, error := some e,
      healthParameters := [], testDate := none }

/-! ## documents.js (storage, listing, deletion, trends) -/

/-- Case-sensitive substring test (`String.prototype.includes`). -/
def containsSub (n : List Char) : List Char → Bool
  | [] => startsWithStr n []
  | s@(_ :: t) => startsWithStr n s || containsSub n t

def strContains (h n : String) : Bool := containsSub n.toList h.toList

/-- `String(v)` (bounded by the value's size; object → `[object Object]`,
array → comma-joined elements). Numbers never reach stringification in
this code base (`extractNumericValue` returns them before `String()`), so
non-integral rationals use the `Rat` rendering. -/
def jsToStringF : Nat → Json → String
  | 0, _ => ""
  | _ + 1, .str s => s
  | _ + 1, .null => "null"
  | _ + 1, .undefined => "undefined"
  | _ + 1, .nan => "NaN"
  | _ + 1, .bool true => "true"
  | _ + 1, .bool false => "false"
  | _ + 1, .num q => if q.den = 1 then toString q.num else toString q
  | fuel + 1, .arr xs => ",".intercalate (xs.map (jsToStringF fuel))
  | _ + 1, .obj _ => "[object Object]"

mutual

def jsize : Json → Nat
  | .arr xs => jsizeL xs + 1
  | .obj fs => jsizeO fs + 1
  | _ => 1

def jsizeL : List Json → Nat
  | [] => 0
  | x :: xs => jsize x + jsizeL xs + 1

def jsizeO : List (String × Json) → Nat
  | [] => 0
  | (_, v) :: xs => jsize v + jsizeO xs + 1

end

def jsToString (v : Json) : String := jsToStringF (jsize v) v

/-- First match of `/[\d.]+/`: the first maximal run of digit/period
characters. -/
def firstDigitDotRun : List Char → Option (List Char)
  | [] => none
  | c :: t =>
    if c.isDigit || c = '.' then
      some ((c :: t).takeWhile fun c' => c'.isDigit || c' = '.')
    else firstDigitDotRun t

/-- `extractNumericValue` (documents.js lines 625-629): numbers pass
through (`typeof value === 'number'`, which includes `NaN`); otherwise
`parseFloat` of the first `[\d.]+` run of `String(value)`, or `null` when
there is no such run. -/
def extractNumericValue (value : Json) : Json :=
  match value with
  | .num q => .num q
  | .nan => .nan
  | v =>
    match firstDigitDotRun (jsToString v).toList with
    | some run => jsParseFloat (String.mk run)
    | none => .null

/-- Row of `health_documents`. -/
structure DocRow where
  document_id : String
  session_token : String
  document_name : String
  document_type : String
  test_date : String
  parameters_json : String
  analysis_result : String
  created_at : String
  parameter_count : Nat
  status : String
  deleted_at : Option String

/-- Row of `health_parameters`. -/
structure ParamRow where
  parameter_id : String
  document_id : String
  session_token : String
  parameter_name : String
  parameter_value : Json
  parameter_unit : String
  reference_range : String
  test_date : String
  category : String
  created_at : String

/-- Row of `anonymous_sessions` (the fields these handlers touch). -/
structure SessionRow where
  session_token : String
  document_count : Int
  last_activity : String

/-- The D1 database as in-memory tables. -/
structure DBState where
  documents : List DocRow
  parameters : List ParamRow
  sessions : List SessionRow

/-- `/^\d{4}-\d{2}-\d{2}$/`. -/
def isYmdFormat (s : String) : Bool :=
  match s.toList with
  | [a, b, c, d, s1, e, f, s2, g, h] =>
    s1 = '-' && s2 = '-' && [a, b, c, d, e, f, g, h].all Char.isDigit
  | _ => false

/-- `determineParameterStatus` (documents.js lines 631-651). -/
def determineParameterStatus (value : Json) (referenceRange : String)
    (parameterName : String) : String :=
  if ¬ truthy value || referenceRange = "" then "Unknown"
  else
    match jsParseFloatVal value with
    | .num numValue =>
      let param := parameterName.toLower
      if strContains param "cholesterol" && strContains referenceRange "<200" then
        (if numValue > 200 then "High" else "Normal")
      else if strContains param "glucose" && strContains referenceRange "70-99" then
        (if numValue > 99 then "High" else if numValue < 70 then "Low" else "Normal")
      else if strContains param "hdl" && strContains referenceRange ">40" then
        (if numValue < 40 then "Low" else "Normal")
      else "Normal"
    | _ => "Unknown"

/-- `storeHealthParameter` (documents.js lines 164-210): computes the
numeric value, validates the test date (falling back to the current
date), and appends one `health_parameters` row. The generated parameter
id, the current date and the current timestamp are host inputs. Database
errors are swallowed (`catch` without rethrow); the insert itself is
modelled as succeeding. -/
def storeHealthParameter (documentId : String) (parameter : Json)
    (sessionToken : String) (testDate : String) (newId : String)
    (nowDate : String) (nowTime : String) (st : DBState) : DBState :=
  let paramValue := extractNumericValue
    (jsOr (jget parameter "value") (jget parameter "parameter"))
  let finalTestDate :=
    if testDate = "" || testDate = "null" then nowDate else testDate
  let finalTestDate :=
    if ¬ isYmdFormat finalTestDate then nowDate else finalTestDate
  { st with
    parameters := st.parameters ++
      [{ parameter_id := newId, document_id := documentId,
         session_token := sessionToken,
         parameter_name := jsToString (jsOr (jsOr (jget parameter "parameter")
           (jget parameter "name")) (.str "Unknown Parameter")),
         parameter_value := paramValue,
         parameter_unit := jsToString (jsOr (jget parameter "unit") (.str "")),
         reference_range := jsToString (jsOr (jsOr (jget parameter "referenceRange")
           (jget parameter "reference_range")) (.str "")),
         test_date := finalTestDate,
         category := jsToString (jsOr (jget parameter "category") (.str "General")),
         created_at := nowTime }] }

/-- One health record of the `list` response (documents.js lines
242-254). -/
structure HealthRecord where
  testDate : String
  uploadDate : String
  parameterName : String
  value : Json
  unit : String
  referenceRange : String
  status : String
  category : String
  documentName : String
  documentId : String
  documentType : String

/-- `listUserDocuments` (documents.js lines 213-274): the session's
active documents, and its parameters joined against active documents.
The SQL `ORDER BY` clauses only permute rows and no claim below depends
on order, so rows are kept in table order. -/
def listUserDocuments (sessionToken : String) (st : DBState) :
    List DocRow × List HealthRecord :=
  let docs := st.documents.filter fun d =>
    d.session_token = sessionToken && d.status = "active"
  let healthRecords := st.parameters.flatMap fun p =>
    (st.documents.filter fun d => p.document_id = d.document_id).filterMap fun d =>
      if p.session_token = sessionToken && d.status = "active" then
        some { testDate := p.test_date, uploadDate := p.created_at,
               parameterName := p.parameter_name, value := p.parameter_value,
               unit := p.parameter_unit,
               referenceRange :=
                 (if p.reference_range = "" then "Not specified" else p.reference_range),
               status := determineParameterStatus p.parameter_value
                 p.reference_range p.parameter_name,
               category := p.category, documentName := d.document_name,
               documentId := d.document_id, documentType := d.document_type }
      else none
  (docs, healthRecords)

/-- `deleteDocument` (documents.js lines 555-602): requires a document id
(checked before the `try`), verifies ownership with
`WHERE document_id = ? AND session_token = ?`, then soft-deletes every
row with that document id and decrements the session's document count.
Errors inside the `try` are rethrown wrapped in
`Failed to delete document: ...`. -/
def deleteDocument (documentId : String) (sessionToken : String) (now : String)
    (st : DBState) : Except String DBState :=
  if documentId = "" then .error "Document ID required"
  else
    match st.documents.find? (fun d =>
        d.document_id = documentId && d.session_token = sessionToken) with
    | none => .error "Failed to delete document: Document not found or access denied"
    | some _ =>
      .ok { st with
        documents := st.documents.map fun d =>
          if d.document_id = documentId then
            { d with status := "deleted", deleted_at := some now }
          else d,
        sessions := st.sessions.map fun s =>
          if s.session_token = sessionToken then
            { s with document_count := s.document_count - 1 }
          else s }

/-- One point of a parameter's trend series as built by
`getParameterTrend` (documents.js lines 457-488); `calculateTrend` reads
only `value`. -/
structure TrendPoint where
  value : ℚ
  date : String

/-- `calculateTrend` (documents.js lines 502-514): percent change from the
first to the last value with a ±5% stability band. A zero first value
makes the JS division produce ±Infinity (or NaN when the last value is
also zero); `Math.abs` of those is never `< 5` and only `+Infinity > 0`,
which the explicit zero branch mirrors exactly. -/
def calculateTrend (data : List TrendPoint) : String :=
  if data.length < 2 then "insufficient_data"
  else
    let values := data.map (·.value)
    let firstValue := values.headD 0
    let lastValue := values.getLastD 0
    if firstValue = 0 then
      (if lastValue > firstValue then "increasing" else "decreasing")
    else
      let percentChange := (lastValue - firstValue) / firstValue * 100
      if |percentChange| < 5 then "stable"
      else if percentChange > 0 then "increasing"
      else "decreasing"

/-! ## Specification-side predicate -/

def allDigits (cs : List Char) : Bool := cs.all Char.isDigit

/-- "Syntactically numeric string" in the spec's sense: one or more
digits, optionally followed by a period and one or more digits — the
language of the numeric captures of the pattern and fuzzy strategies. -/
def isNumericStr (s : String) : Bool :=
  let cs := s.toList
  let d1 := cs.takeWhile Char.isDigit
  let rest := cs.drop d1.length
  (decide (d1 ≠ [])) &&
    (match rest with
     | [] => true
     | '.' :: ds => (decide (ds ≠ [])) && allDigits ds
     | _ => false)

/-! ## Decidable equality of embedded values -/

theorem jsize_pos (a : Json) : 1 ≤ jsize a := by
  cases a <;> simp [jsize]

theorem jbeq_iff_measure : ∀ n,
    (∀ a b, jsize a ≤ n → (jbeq a b = true ↔ a = b)) ∧
    (∀ xs ys, jsizeL xs ≤ n → (jbeqL xs ys = true ↔ xs = ys)) ∧
    (∀ fs gs, jsizeO fs ≤ n → (jbeqO fs gs = true ↔ fs = gs)) := by
  intro n
  induction n with
  | zero =>
    refine ⟨fun a b h => absurd (le_trans (jsize_pos a) h) (by omega), ?_, ?_⟩
    · intro xs ys h
      cases xs with
      | nil => cases ys <;> simp [jbeqL]
      | cons x t =>
        exfalso
        have := jsize_pos x
        simp only [jsizeL] at h
        omega
    · intro fs gs h
      cases fs with
      | nil => cases gs <;> simp [jbeqO]
      | cons f t =>
        exfalso
        have := jsize_pos f.2
        simp only [jsizeO] at h
        omega
  | succ n ih =>
    obtain ⟨ihv, ihl, iho⟩ := ih
    refine ⟨?_, ?_, ?_⟩
    · intro a b h
      cases a with
      | undefined => cases b <;> simp [jbeq]
      | null => cases b <;> simp [jbeq]
      | nan => cases b <;> simp [jbeq]
      | bool x => cases b <;> simp [jbeq]
      | num x => cases b <;> simp [jbeq]
      | str x => cases b <;> simp [jbeq]
      | arr xs =>
        cases b with
        | arr ys =>
          have hx : jsizeL xs ≤ n := by simp only [jsize] at h; omega
          simpa [jbeq] using ihl xs ys hx
        | undefined => simp [jbeq]
        | null => simp [jbeq]
        | nan => simp [jbeq]
        | bool y => simp [jbeq]
        | num y => simp [jbeq]
        | str y => simp [jbeq]
        | obj gs => simp [jbeq]
      | obj fs =>
        cases b with
        | obj gs =>
          have hx : jsizeO fs ≤ n := by simp only [jsize] at h; omega
          simpa [jbeq] using iho fs gs hx
        | undefined => simp [jbeq]
        | null => simp [jbeq]
        | nan => simp [jbeq]
        | bool y => simp [jbeq]
        | num y => simp [jbeq]
        | str y => simp [jbeq]
        | arr ys => simp [jbeq]
    · intro xs ys h
      cases xs with
      | nil => cases ys <;> simp [jbeqL]
      | cons x t =>
        cases ys with
        | nil => simp [jbeqL]
        | cons y u =>
          simp only [jbeqL, Bool.and_eq_true, List.cons.injEq]
          have hx : jsize x ≤ n := by simp only [jsizeL] at h; omega
          have ht : jsizeL t ≤ n := by
            have := jsize_pos x
            simp only [jsizeL] at h
            omega
          rw [ihv x y hx, ihl t u ht]
    · intro fs gs h
      cases fs with
      | nil => cases gs <;> simp [jbeqO]
      | cons f t =>
        cases gs with
        | nil => simp [jbeqO]
        | cons g u =>
          obtain ⟨k1, v1⟩ := f
          obtain ⟨k2, v2⟩ := g
          simp only [jbeqO, Bool.and_eq_true, List.cons.injEq, Prod.mk.injEq, beq_iff_eq]
          have hv : jsize v1 ≤ n := by simp only [jsizeO] at h; omega
          have ht : jsizeO t ≤ n := by
            have := jsize_pos v1
            simp only [jsizeO] at h
            omega
          rw [ihv v1 v2 hv, iho t u ht]

theorem jbeq_iff (a b : Json) : jbeq a b = true ↔ a = b :=
  (jbeq_iff_measure (jsize a)).1 a b le_rfl

instance : DecidableEq Json := fun a b => decidable_of_iff _ (jbeq_iff a b)

deriving instance DecidableEq for ExtractResponse
deriving instance DecidableEq for HealthRecord
deriving instance DecidableEq for DocRow
deriving instance DecidableEq for ParamRow
deriving instance DecidableEq for SessionRow

theorem jbeq_str_iff (x : Json) (n : String) : jbeq x (.str n) = true ↔ x = .str n := by
  cases x <;> simp [jbeq]

theorem jbeq_str_self (n : String) : jbeq (.str n) (.str n) = true := by simp [jbeq]

/-- Entries of a map whose key is the parameter name `n`. -/
def kf (n : String) (m : List (Json × Json)) : List (Json × Json) :=
  m.filter fun e => jbeq e.1 (.str n)

theorem kf_nil (n : String) : kf n [] = [] := rfl

theorem kf_cons_pos (n : String) (k v : Json) (t : List (Json × Json))
    (h : jbeq k (.str n) = true) : kf n ((k, v) :: t) = (k, v) :: kf n t := by
  simp [kf, List.filter, h]

theorem kf_cons_neg (n : String) (k v : Json) (t : List (Json × Json))
    (h : jbeq k (.str n) = false) : kf n ((k, v) :: t) = kf n t := by
  simp [kf, List.filter, h]

theorem kf_mapSet_ne (n : String) (m : List (Json × Json)) (k v : Json)
    (h : jbeq k (.str n) = false) : kf n (mapSet m k v) = kf n m := by
  induction m with
  | nil =>
    show kf n [(k, v)] = kf n []
    rw [kf_cons_neg n k v [] h]
  | cons e t ih =>
    obtain ⟨k', v'⟩ := e
    by_cases hk : jbeq k' k = true
    · have hk'n : jbeq k' (.str n) = false := by
        rcases Bool.eq_false_or_eq_true (jbeq k' (.str n)) with ht | hf
        · exfalso
          have h1 : k' = .str n := (jbeq_str_iff k' n).mp ht
          have h2 : k' = k := (jbeq_iff k' k).mp hk
          rw [← h2, h1, jbeq_str_self] at h
          simp at h
        · exact hf
      have hms : mapSet ((k', v') :: t) k v = (k', v) :: t := by simp [mapSet, hk]
      rw [hms, kf_cons_neg n k' v t hk'n, kf_cons_neg n k' v' t hk'n]
    · simp only [Bool.not_eq_true] at hk
      have hms : mapSet ((k', v') :: t) k v = (k', v') :: mapSet t k v := by
        simp [mapSet, hk]
      rw [hms]
      by_cases hk'n : jbeq k' (.str n) = true
      · rw [kf_cons_pos n k' v' _ hk'n, kf_cons_pos n k' v' t hk'n, ih]
      · simp only [Bool.not_eq_true] at hk'n
        rw [kf_cons_neg n k' v' _ hk'n, kf_cons_neg n k' v' t hk'n, ih]

theorem kf_mapSet_nil (n : String) (m : List (Json × Json)) (v : Json)
    (h : kf n m = []) : kf n (mapSet m (.str n) v) = [(.str n, v)] := by
  induction m with
  | nil =>
    show kf n [(.str n, v)] = _
    rw [kf_cons_pos n _ v [] (jbeq_str_self n), kf_nil]
  | cons e t ih =>
    obtain ⟨k', v'⟩ := e
    by_cases hk : jbeq k' (.str n) = true
    · rw [kf_cons_pos n k' v' t hk] at h
      exact absurd h (by simp)
    · simp only [Bool.not_eq_true] at hk
      rw [kf_cons_neg n k' v' t hk] at h
      have hms : mapSet ((k', v') :: t) (.str n) v = (k', v') :: mapSet t (.str n) v := by
        have : jbeq k' (.str n) ≠ true := by simp [hk]
        simp [mapSet, hk]
      rw [hms, kf_cons_neg n k' v' _ hk]
      exact ih h

theorem kf_mapSet_snd (n : String) (m : List (Json × Json)) (v w : Json)
    (h : (kf n m).map Prod.snd = [w]) :
    (kf n (mapSet m (.str n) v)).map Prod.snd = [v] := by
  induction m with
  | nil => rw [kf_nil] at h; simp at h
  | cons e t ih =>
    obtain ⟨k', v'⟩ := e
    by_cases hk : jbeq k' (.str n) = true
    · rw [kf_cons_pos n k' v' t hk] at h
      simp only [List.map_cons, List.cons.injEq] at h
      obtain ⟨hw, htail⟩ := h
      have htnil : kf n t = [] := by
        rcases hkf : kf n t with _ | ⟨x, xs⟩
        · rfl
        · rw [hkf] at htail; simp at htail
      have hkn : k' = Json.str n := (jbeq_str_iff k' n).mp hk
      have hms : mapSet ((k', v') :: t) (.str n) v = (k', v) :: t := by
        subst hkn; simp [mapSet, jbeq_str_self]
      rw [hms, kf_cons_pos n k' v t hk, htnil]
      simp
    · simp only [Bool.not_eq_true] at hk
      rw [kf_cons_neg n k' v' t hk] at h
      have hms : mapSet ((k', v') :: t) (.str n) v = (k', v') :: mapSet t (.str n) v := by
        simp [mapSet, hk]
      rw [hms, kf_cons_neg n k' v' _ hk]
      exact ih h

theorem mapHas_kf (n : String) (m : List (Json × Json)) :
    mapHas m (.str n) = true ↔ kf n m ≠ [] := by
  constructor
  · intro h
    simp only [mapHas, List.any_eq_true] at h
    obtain ⟨e, he, hb⟩ := h
    intro hnil
    have hmem : e ∈ kf n m := by
      simp only [kf, List.mem_filter]
      exact ⟨he, hb⟩
    rw [hnil] at hmem
    exact List.not_mem_nil e hmem
  · intro h
    rcases hkf : kf n m with _ | ⟨e, t⟩
    · exact absurd hkf h
    · have hmem : e ∈ kf n m := by rw [hkf]; exact List.mem_cons_self e t
      simp only [kf, List.mem_filter] at hmem
      simp only [mapHas, List.any_eq_true]
      exact ⟨e, hmem.1, hmem.2⟩

theorem jget_setF_ne (fs : List (String × Json)) (k' : String) (v' : Json)
    (k : String) (h : k' ≠ k) :
    jget (.obj (setF fs k' v')) k = jget (.obj fs) k := by
  induction fs with
  | nil =>
    simp only [setF, jget, List.find?]
    have : (k' == k) = false := by simp [h]
    simp [this]
  | cons e t ih =>
    obtain ⟨k1, v1⟩ := e
    by_cases h1 : k1 = k'
    · subst h1
      simp only [setF, if_pos rfl]
      simp only [jget, List.find?]
      have : (k1 == k) = false := by simp [h]
      simp [this]
    · have hs : setF ((k1, v1) :: t) k' v' = (k1, v1) :: setF t k' v' := by
        simp [setF, h1]
      rw [hs]
      by_cases h2 : k1 = k
      · subst h2
        simp [jget, List.find?]
      · simp only [jget, List.find?] at ih ⊢
        have : (k1 == k) = false := by simp [h2]
        simp only [this, Bool.false_eq_true, if_false] at ih ⊢
        exact ih

theorem jget_jspread_ne (v : Json) (extra : List (String × Json)) (k : String)
    (h : ∀ e ∈ extra, e.1 ≠ k) : jget (jspread v extra) k = jget v k := by
  have main : ∀ (fs : List (String × Json)),
      jget (.obj (extra.foldl (fun acc e => setF acc e.1 e.2) fs)) k = jget (.obj fs) k := by
    induction extra with
    | nil => intro fs; simp
    | cons e t ih =>
      intro fs
      have he : e.1 ≠ k := h e (List.mem_cons_self e t)
      have ht : ∀ e' ∈ t, e'.1 ≠ k := fun e' he' => h e' (List.mem_cons_of_mem e he')
      simp only [List.foldl_cons]
      calc jget (.obj (t.foldl (fun acc e => setF acc e.1 e.2) (setF fs e.1 e.2))) k
          = jget (.obj (setF fs e.1 e.2)) k := by
            exact (jbeq_iff _ _).mp ((jbeq_iff _ _).mpr (by
              have := ih (fun e' he' => ht e' he') (setF fs e.1 e.2)
              exact this))
        _ = jget (.obj fs) k := jget_setF_ne fs e.1 e.2 k he
  match v with
  | .obj fs => exact main fs
  | .undefined => simpa [jspread, jget] using main []
  | .null => simpa [jspread, jget] using main []
  | .nan => simpa [jspread, jget] using main []
  | .bool b => simpa [jspread, jget] using main []
  | .num q => simpa [jspread, jget] using main []
  | .str s => simpa [jspread, jget] using main []
  | .arr xs => simpa [jspread, jget] using main []

/-- The step function of the pattern phase of `intelligentCombination`. -/
def patStep (m : List (Json × Json)) (param : Json) : List (Json × Json) :=
  mapSet m (jget param "parameter") (jspread param [("source", Json.str "pattern")])

/-- A guarded step (AI or fuzzy phase): only insert when the name is not
yet resolved. -/
def guardStep (valOf : Json → Json) (m : List (Json × Json)) (param : Json) :
    List (Json × Json) :=
  if mapHas m (jget param "parameter") then m
  else mapSet m (jget param "parameter") (valOf param)

theorem kf_patFold_none (n : String) :
    ∀ (l : List Json) (m : List (Json × Json)),
      (∀ q ∈ l, jbeq (jget q "parameter") (.str n) = false) →
      kf n (l.foldl patStep m) = kf n m := by
  intro l
  induction l with
  | nil => intro m _; rfl
  | cons q t ih =>
    intro m h
    simp only [List.foldl_cons]
    rw [ih _ (fun q' hq' => h q' (List.mem_cons_of_mem q hq'))]
    exact kf_mapSet_ne n m _ _ (h q (List.mem_cons_self q t))

theorem kf_patFold (n : String) (cp : Json) :
    ∀ (l : List Json) (m : List (Json × Json)),
      l.filter (fun q => jbeq (jget q "parameter") (.str n)) = [cp] →
      kf n m = [] →
      (kf n (l.foldl patStep m)).map Prod.snd =
        [jspread cp [("source", Json.str "pattern")]] := by
  intro l
  induction l with
  | nil => intro m h _; simp at h
  | cons q t ih =>
    intro m hf hm
    rw [List.filter_cons] at hf
    by_cases hq : jbeq (jget q "parameter") (.str n) = true
    · rw [if_pos (by simp [hq])] at hf
      simp only [List.cons.injEq] at hf
      obtain ⟨hqcp, htnil⟩ := hf
      subst hqcp
      have hkey : jget q "parameter" = Json.str n := (jbeq_str_iff _ n).mp hq
      simp only [List.foldl_cons]
      have hstep : kf n (patStep m q) =
          [(Json.str n, jspread q [("source", Json.str "pattern")])] := by
        unfold patStep
        rw [hkey]
        exact kf_mapSet_nil n m _ hm
      have hrest : ∀ q' ∈ t, jbeq (jget q' "parameter") (.str n) = false := by
        intro q' hq'
        have := List.filter_eq_nil_iff.mp htnil q' hq'
        simpa using this
      rw [kf_patFold_none n t _ hrest, hstep]
      simp
    · simp only [Bool.not_eq_true] at hq
      rw [if_neg (by simp [hq])] at hf
      simp only [List.foldl_cons]
      refine ih _ hf ?_
      unfold patStep
      rw [kf_mapSet_ne n m _ _ hq, hm]

theorem kf_guardFold (n : String) (valOf : Json → Json) (w : Json) :
    ∀ (l : List Json) (m : List (Json × Json)),
      (kf n m).map Prod.snd = [w] →
      (kf n (l.foldl (guardStep valOf) m)).map Prod.snd = [w] := by
  intro l
  induction l with
  | nil => intro m h; exact h
  | cons q t ih =>
    intro m h
    simp only [List.foldl_cons]
    refine ih _ ?_
    unfold guardStep
    by_cases hhas : mapHas m (jget q "parameter") = true
    · rw [if_pos hhas]; exact h
    · rw [if_neg hhas]
      by_cases hq : jbeq (jget q "parameter") (.str n) = true
      · exfalso
        have hkey : jget q "parameter" = Json.str n := (jbeq_str_iff _ n).mp hq
        rw [hkey] at hhas
        have : kf n m = [] := by
          by_contra hne
          exact hhas ((mapHas_kf n m).mpr hne)
        rw [this] at h
        simp at h
      · simp only [Bool.not_eq_true] at hq
        rw [kf_mapSet_ne n m _ _ hq]
        exact h

/-- Every stored value carries its own key as its `parameter` field. -/
def GoodMap (m : List (Json × Json)) : Prop :=
  ∀ e ∈ m, jget e.2 "parameter" = e.1

theorem GoodMap_mapSet (m : List (Json × Json)) (k v : Json)
    (hm : GoodMap m) (hv : jget v "parameter" = k) : GoodMap (mapSet m k v) := by
  induction m with
  | nil =>
    intro e he
    simp only [mapSet, List.mem_singleton] at he
    subst he
    exact hv
  | cons e0 t ih =>
    obtain ⟨k', v'⟩ := e0
    by_cases hk : jbeq k' k = true
    · have hms : mapSet ((k', v') :: t) k v = (k', v) :: t := by simp [mapSet, hk]
      rw [hms]
      intro e he
      rcases List.mem_cons.mp he with he1 | he2
      · subst he1
        have : k' = k := (jbeq_iff k' k).mp hk
        simpa [this] using hv
      · exact hm e (List.mem_cons_of_mem _ he2)
    · simp only [Bool.not_eq_true] at hk
      have hms : mapSet ((k', v') :: t) k v = (k', v') :: mapSet t k v := by
        simp [mapSet, hk]
      rw [hms]
      intro e he
      rcases List.mem_cons.mp he with he1 | he2
      · subst he1
        exact hm (k', v') (List.mem_cons_self _ t)
      · exact ih (fun e' he' => hm e' (List.mem_cons_of_mem _ he')) e he2

theorem GoodMap_patFold :
    ∀ (l : List Json) (m : List (Json × Json)), GoodMap m →
      GoodMap (l.foldl patStep m) := by
  intro l
  induction l with
  | nil => intro m h; exact h
  | cons q t ih =>
    intro m h
    simp only [List.foldl_cons]
    refine ih _ ?_
    unfold patStep
    refine GoodMap_mapSet m _ _ h ?_
    exact jget_jspread_ne q [("source", Json.str "pattern")] "parameter" (by simp)

theorem GoodMap_guardFold (valOf : Json → Json)
    (hval : ∀ q, jget (valOf q) "parameter" = jget q "parameter") :
    ∀ (l : List Json) (m : List (Json × Json)), GoodMap m →
      GoodMap (l.foldl (guardStep valOf) m) := by
  intro l
  induction l with
  | nil => intro m h; exact h
  | cons q t ih =>
    intro m h
    simp only [List.foldl_cons]
    refine ih _ ?_
    unfold guardStep
    by_cases hhas : mapHas m (jget q "parameter") = true
    · rw [if_pos hhas]; exact h
    · rw [if_neg hhas]
      exact GoodMap_mapSet m _ _ h (hval q)

theorem values_filter_kf (n : String) :
    ∀ (m : List (Json × Json)), GoodMap m →
      (mapValues m).filter (fun r => jbeq (jget r "parameter") (.str n)) =
        (kf n m).map Prod.snd := by
  intro m
  induction m with
  | nil => intro _; rfl
  | cons e t ih =>
    obtain ⟨k, v⟩ := e
    intro h
    have hv : jget v "parameter" = k := h (k, v) (List.mem_cons_self _ t)
    have ht : GoodMap t := fun e' he' => h e' (List.mem_cons_of_mem _ he')
    simp only [mapValues, List.map_cons, List.filter_cons]
    by_cases hk : jbeq k (.str n) = true
    · rw [if_pos (by simp [hv, hk]), kf_cons_pos n k v t hk]
      simp only [List.map_cons, List.cons.injEq]
      exact ⟨trivial, ih ht⟩
    · simp only [Bool.not_eq_true] at hk
      rw [if_neg (by simp [hv, hk]), kf_cons_neg n k v t hk]
      exact ih ht

/-- The value stored by the AI phase of `intelligentCombination`. -/
def aiVal (param : Json) : Json :=
  jspread param
    [("source", .str "ai"),
     ("referenceRange", jsOr (jget param "referenceRange")
        (.str "Check with healthcare provider")),
     ("status", jsOr (jget param "status") (.str "Unknown")),
     ("date", jsOr (jget param "date") (.str "2025-09-09"))]

/-- The value stored by the fuzzy phase of `intelligentCombination`. -/
def fuzzyVal (param : Json) : Json := jspread param [("source", .str "fuzzy")]

theorem intelligentCombination_eq (p a f : List Json) :
    intelligentCombination p a f =
      mapValues (f.foldl (guardStep fuzzyVal)
        (a.foldl (guardStep aiVal) (p.foldl patStep []))) := rfl

/-- C1: merge resolves each parameter name by the fixed priority
Pattern > LLM > Fuzzy. Whenever the pattern list has exactly one candidate
`cp` for the name `n` and the AI list has a candidate `ca` for the same
name with a different value, the merged output contains exactly one
record for `n` and its value is `cp`'s value — the later-priority
duplicate is discarded, never averaged. (`hsafe` excludes `null` and
`undefined` list elements, on which the JS `param.parameter` accesses
would throw rather than merge.) -/
theorem merge_priority_pattern_over_ai
    (p a f : List Json) (n : String) (cp ca : Json)
    (hsafe : ∀ c ∈ p ++ a ++ f, c ≠ Json.null ∧ c ≠ Json.undefined)
    (hca : ca ∈ a) (hcan : jget ca "parameter" = Json.str n)
    (hne : jget ca "value" ≠ jget cp "value")
    (huniq : p.filter (fun q => jbeq (jget q "parameter") (Json.str n)) = [cp]) :
    ((intelligentCombination p a f).filter
        (fun r => jbeq (jget r "parameter") (Json.str n))).map (fun r => jget r "value")
      = [jget cp "value"] := by
  rw [intelligentCombination_eq]
  have h1 : (kf n (p.foldl patStep [])).map Prod.snd =
      [jspread cp [("source", Json.str "pattern")]] :=
    kf_patFold n cp p [] huniq rfl
  have h2 := kf_guardFold n aiVal _ a _ h1
  have h3 := kf_guardFold n fuzzyVal _ f _ h2
  have hg : GoodMap (f.foldl (guardStep fuzzyVal)
      (a.foldl (guardStep aiVal) (p.foldl patStep []))) := by
    apply GoodMap_guardFold fuzzyVal
      (fun q => jget_jspread_ne q _ "parameter" (by simp))
    apply GoodMap_guardFold aiVal
      (fun q => jget_jspread_ne q _ "parameter" (by simp))
    apply GoodMap_patFold
    intro e he
    exact absurd he (List.not_mem_nil e)
  rw [values_filter_kf n _ hg, h3]
  simp only [List.map_cons, List.map_nil]
  rw [jget_jspread_ne cp _ "value" (by simp)]

def c1PatternCand : Json :=
  Json.obj [("parameter", .str "Total Cholesterol"), ("value", .str "230")]

def c1AiCand : Json :=
  Json.obj [("parameter", .str "Total Cholesterol"), ("value", .str "240")]

/-- Witness for C1 at a concrete input: one Pattern candidate (230) and
one conflicting LLM candidate (240) for Total Cholesterol merge to the
Pattern value 230. -/
theorem merge_priority_pattern_over_ai_witness :
    ((intelligentCombination [c1PatternCand] [c1AiCand] []).filter
        (fun r => jbeq (jget r "parameter") (Json.str "Total Cholesterol"))).map
        (fun r => jget r "value") = [jget c1PatternCand "value"] :=
  merge_priority_pattern_over_ai [c1PatternCand] [c1AiCand] [] "Total Cholesterol"
    c1PatternCand c1AiCand (by decide) (by decide) (by decide) (by decide) (by decide)

set_option maxRecDepth 8000

theorem processBody_insufficient (t : String) (ai : AIBehavior) (h : t.length < 10) :
    processBody t ai = .error (insufficientMsg t.length) := by
  unfold processBody
  rw [if_pos (Or.inr h)]

theorem processBody_noParams (t : String) (ai : AIBehavior)
    (hlen : 10 ≤ t.length)
    (hp : aggressivePatternExtraction t = [])
    (ha : smartAIExtraction t ai = .arr [])
    (hf : fuzzyTextExtraction t = []) :
    processBody t ai = .error (noParamsMsg t 0 0 0) := by
  unfold processBody
  rw [if_neg (by push_neg; exact ⟨fun he => by simp [he] at hlen, by omega⟩)]
  rw [hp, ha, hf]
  rfl

theorem processBody_ok_nonempty (t : String) (ai : AIBehavior) (s : ExtractSuccess)
    (h : processBody t ai = .ok s) : s.healthParameters ≠ [] := by
  unfold processBody at h
  split at h
  · simp at h
  · dsimp only at h
    split at h
    · split at h
      · simp at h
      · simp only [Except.ok.injEq] at h
        subst h
        intro hc
        simp_all
    · simp at h

/-- C3: when every strategy returns zero candidates (and the text passed
the length gate), the request fails with success:false, HTTP 400, and an
error message that carries each strategy's candidate count and the
acquired text (exhibited by the explicit decomposition around `t`);
moreover a successful response never carries an empty parameter list. -/
theorem no_candidates_is_terminal_failure :
    (∀ (t : String) (ai : AIBehavior),
      10 ≤ t.length →
      aggressivePatternExtraction t = [] →
      smartAIExtraction t ai = .arr [] →
      fuzzyTextExtraction t = [] →
      processExtract t ai =
        { success := false, status := 400, error := some (noParamsMsg t 0 0 0),
          healthParameters := [], testDate := none } ∧
      ∃ pre suf, noParamsMsg t 0 0 0 = pre ++ t ++ suf) ∧
    (∀ (t : String) (ai : AIBehavior),
      (processExtract t ai).success = true → (processExtract t ai).healthParameters ≠ []) := by
  constructor
  · intro t ai hlen hp ha hf
    constructor
    · unfold processExtract
      rw [processBody_noParams t ai hlen hp ha hf]
    · refine ⟨"COMPLETE EXTRACTION FAILURE\n\nEXTRACTED TEXT (" ++ toString t.length ++
        " chars):\n\x22",
        "\x22\n\nSTRATEGY RESULTS:\n- Pattern matching: " ++ toString 0 ++
        " parameters\n- AI extraction: " ++ toString 0 ++
        " parameters  \n- Fuzzy analysis: " ++ toString 0 ++
        " parameters\n\nThis document may not contain recognizable health parameters.", ?_⟩
      unfold noParamsMsg
      simp [String.append_assoc]
  · intro t ai
    unfold processExtract
    rcases hb : processBody t ai with e | s
    · intro h; simp at h
    · intro _
      simpa using processBody_ok_nonempty t ai s hb

/-- Witness for C3: a text with no recognizable terms yields the terminal
diagnostic failure, and a succeeding extraction has a non-empty list. -/
theorem no_candidates_is_terminal_failure_witness :
    (processExtract "qqqq wwww eeee" (.respond .null) =
      { success := false, status := 400,
        error := some (noParamsMsg "qqqq wwww eeee" 0 0 0),
        healthParameters := [], testDate := none }) ∧
    (processExtract "cholesterol 550" (.respond .null)).healthParameters ≠ [] :=
  ⟨(no_candidates_is_terminal_failure.1 "qqqq wwww eeee" (.respond .null)
      (by decide) (by decide) (by decide) (by decide)).1,
   no_candidates_is_terminal_failure.2 "cholesterol 550" (.respond .null) (by decide)⟩

/-- The merged record that the pipeline produces for the out-of-range
reading `cholesterol 550`. -/
def tc550Merged : Json := Json.obj
  [("category", Json.str "Cardiovascular"),
   ("parameter", Json.str "Total Cholesterol"),
   ("value", Json.str "550"),
   ("unit", Json.str "mg/dL"),
   ("referenceRange", Json.str "<200 mg/dL"),
   ("status", Json.str "High"),
   ("date", Json.str "2025-09-09"),
   ("source", Json.str "pattern")]

/-- C2 counterexample: the claim that a 550 Total Cholesterol extraction
is dropped by validation is false — on the text `"cholesterol 550"` the
pattern generator emits the value `"550"`, and the pipeline returns it in
a successful response. -/
theorem range_validation_counterexample :
    (aggressivePatternExtraction "cholesterol 550").map (fun r => jget r "value") =
      [Json.str "550"] ∧
    (processExtract "cholesterol 550" (.respond .null)).success = true ∧
    Json.str "550" ∈
      ((processExtract "cholesterol 550" (.respond .null)).healthParameters.map
        (fun r => jget r "value")) := by
  refine ⟨by decide, by decide, ?_⟩
  decide

/-- C2 amended: the pipeline performs no medically-plausible-range
validation at all — generator values pass through unchanged, and the
out-of-range reading 550 for Total Cholesterol survives merge into the
final successful output (flagged only as status High by the cut-point
rule). -/
theorem range_validation_amended :
    processExtract "cholesterol 550" (.respond .null) =
      { success := true, status := 200, error := none,
        healthParameters := [tc550Merged], testDate := some "2025-09-09" } := by
  decide

/-- C6: an acquired text shorter than the 10-character floor terminates
the request with the insufficient-text failure before any candidate
generator can contribute: the response does not depend on the LLM
behaviour in any way, and the empty upload acquires the empty text (so an
empty blob takes exactly this path with zero generators run). -/
theorem insufficient_text_fails_early :
    (∀ (t : String) (ai : AIBehavior), t.length < 10 →
      processExtract t ai =
        { success := false, status := 400,
          error := some (insufficientMsg t.length),
          healthParameters := [], testDate := none }) ∧
    (∀ (t : String) (ai ai' : AIBehavior), t.length < 10 →
      processExtract t ai = processExtract t ai') ∧
    advancedPDFExtraction "" = ("", []) := by
  refine ⟨?_, ?_, by decide⟩
  · intro t ai h
    unfold processExtract
    rw [processBody_insufficient t ai h]
  · intro t ai ai' h
    have h1 : processExtract t ai =
        { success := false, status := 400,
          error := some (insufficientMsg t.length),
          healthParameters := [], testDate := none } := by
      unfold processExtract
      rw [processBody_insufficient t ai h]
    have h2 : processExtract t ai' =
        { success := false, status := 400,
          error := some (insufficientMsg t.length),
          healthParameters := [], testDate := none } := by
      unfold processExtract
      rw [processBody_insufficient t ai' h]
    rw [h1, h2]

/-- Witness for C6 at the 5-character text `"tiny!"` and two different
LLM behaviours. -/
theorem insufficient_text_fails_early_witness :
    (processExtract "tiny!" (.respond .null) =
      { success := false, status := 400,
        error := some (insufficientMsg 5),
        healthParameters := [], testDate := none }) ∧
    processExtract "tiny!" (.fail "socket hang up") =
      processExtract "tiny!" (.respond .null) :=
  ⟨insufficient_text_fails_early.1 "tiny!" (.respond .null) (by decide),
   insufficient_text_fails_early.2.1 "tiny!" (.fail "socket hang up")
     (.respond .null) (by decide)⟩

/-- C4 counterexample: a lone ISO date in the text is NOT returned — with
a single match, `match[1]` of the global `String.match` result is absent
(it is the second full match, not a capture group), so detection yields
`null` and line 89 substitutes the fixed literal `'2025-09-09'`, not the
date from the text and not the current date. -/
theorem date_detection_counterexample :
    advancedDateDetection "Labs 2025-01-02 done" = none ∧
    testDateOf "Labs 2025-01-02 done" = "2025-09-09" ∧
    ("2025-09-09" : String) ≠ "2025-01-02" := by
  refine ⟨by decide, by decide, by decide⟩

/-- C4 amended: `advancedDateDetection` returns a date only when some
numeric pattern matches at least twice (it reads `match[1]`, the second
full match of a global regex); when every pattern matches at most once —
including any lone ISO date, and any month-name date such as
`"September 2025"`, which no pattern recognizes — it returns `null` and
the pipeline substitutes the fixed literal `'2025-09-09'`. No future-date
or five-year-past rejection is applied: a twice-occurring future date is
returned unchanged. -/
theorem date_detection_amended :
    (∀ t : String,
      (∀ p ∈ datePatterns, ((jsMatchG t p).getD []).length ≤ 1) →
      advancedDateDetection t = none) ∧
    advancedDateDetection "Labs 2025-01-02 and 2025-01-02" = some "2025-01-02" ∧
    advancedDateDetection "Labs 2030-01-02 and 2030-01-02" = some "2030-01-02" ∧
    advancedDateDetection "September 2025" = none ∧
    testDateOf "September 2025" = "2025-09-09" := by
  refine ⟨?_, by decide, by decide, by decide, by decide⟩
  intro t h
  unfold advancedDateDetection
  refine List.findSome?_eq_none_iff.mpr ?_
  intro p hp
  rcases hm : jsMatchG t p with _ | ms
  · rfl
  · have hlen : ms.length ≤ 1 := by
      have := h p hp
      rw [hm] at this
      simpa using this
    have : ms.get? 1 = none := List.get?_eq_none.mpr hlen
    simp only [hm, this]

/-- Witness for C4 amended: the general single-match clause applied to the
month-name text `"September 2025"`. -/
theorem date_detection_amended_witness :
    advancedDateDetection "September 2025" = none :=
  date_detection_amended.1 "September 2025" (by decide)

/-- An `env.AI.run` result whose `response` field is the string `s`. -/
def aiRespOf (s : String) : AIBehavior := .respond (Json.obj [("response", .str s)])

/-- C5: the LLM generator is a total boundary — a thrown `env.AI.run`, a
missing/falsy `response`, a response without a brace span, and a span
that fails `JSON.parse` each yield the empty candidate list, and more
generally every internal error of the strategy body is recovered to the
empty list rather than propagated, so the pipeline always continues with
the other strategies. -/
theorem llm_generator_never_propagates_errors :
    (∀ (t msg : String), smartAIExtraction t (.fail msg) = .arr []) ∧
    (∀ (t : String) (v : Json), truthy (jget v "response") = false →
      smartAIExtraction t (.respond v) = .arr []) ∧
    (∀ (t s : String), jsonSpan s = none →
      smartAIExtraction t (aiRespOf s) = .arr []) ∧
    (∀ (t s sp : String), jsonSpan s = some sp → jsonParse sp = none →
      smartAIExtraction t (aiRespOf s) = .arr []) ∧
    (∀ (t : String) (b : AIBehavior), (smartAIBody t b).isOk = false →
      smartAIExtraction t b = .arr []) := by
  refine ⟨fun t msg => rfl, ?_, ?_, ?_, ?_⟩
  · intro t v h
    simp [smartAIExtraction, smartAIBody, h]
  · intro t s hspan
    by_cases hs : s = ""
    · subst hs
      rfl
    · simp [smartAIExtraction, smartAIBody, aiRespOf, jget, List.find?, truthy,
        hs, hspan]
  · intro t s sp hspan hparse
    by_cases hs : s = ""
    · subst hs
      rw [show jsonSpan "" = (none : Option String) from by decide] at hspan
      simp at hspan
    · simp [smartAIExtraction, smartAIBody, aiRespOf, jget, List.find?, truthy,
        hs, hspan, hparse]
  · intro t b h
    unfold smartAIExtraction
    rcases hb : smartAIBody t b with e | v
    · rfl
    · rw [hb] at h
      simp [Except.isOk, Except.toBool] at h

/-- Witness for C5: each recovered failure mode at a concrete input — a
thrown call, a `null` result, a response with no JSON, a response with a
malformed JSON span, and the body-level recovery clause. -/
theorem llm_generator_never_propagates_errors_witness :
    smartAIExtraction "text" (.fail "model timeout") = .arr [] ∧
    smartAIExtraction "text" (.respond .null) = .arr [] ∧
    smartAIExtraction "text" (aiRespOf "Sorry, I cannot help with that.") = .arr [] ∧
    smartAIExtraction "text" (aiRespOf "\x7boops\x7d") = .arr [] ∧
    smartAIExtraction "text" (.fail "socket reset") = .arr [] :=
  ⟨llm_generator_never_propagates_errors.1 "text" "model timeout",
   llm_generator_never_propagates_errors.2.1 "text" .null (by decide),
   llm_generator_never_propagates_errors.2.2.1 "text"
     "Sorry, I cannot help with that." (by decide),
   llm_generator_never_propagates_errors.2.2.2.1 "text" "\x7boops\x7d" "\x7boops\x7d"
     (by decide) (by decide),
   llm_generator_never_propagates_errors.2.2.2.2 "text" (.fail "socket reset")
     (by decide)⟩

/-- C8: trend direction is percent change from the first value to the
last with a ±5% stability band: fewer than 2 points is
`insufficient_data`; otherwise (for the positive series the pipeline
feeds it, so the first value is non-zero) `|pc| < 5` is `stable`, a
positive change is `increasing`, a negative change is `decreasing`. -/
theorem trend_direction_by_percent_change :
    (∀ data : List TrendPoint, data.length < 2 →
      calculateTrend data = "insufficient_data") ∧
    (∀ data : List TrendPoint, 2 ≤ data.length →
      (data.map (·.value)).headD 0 ≠ 0 →
      (|((data.map (·.value)).getLastD 0 - (data.map (·.value)).headD 0) /
          (data.map (·.value)).headD 0 * 100| < 5 →
        calculateTrend data = "stable") ∧
      (5 ≤ |((data.map (·.value)).getLastD 0 - (data.map (·.value)).headD 0) /
          (data.map (·.value)).headD 0 * 100| →
        0 < ((data.map (·.value)).getLastD 0 - (data.map (·.value)).headD 0) /
          (data.map (·.value)).headD 0 * 100 →
        calculateTrend data = "increasing") ∧
      (5 ≤ |((data.map (·.value)).getLastD 0 - (data.map (·.value)).headD 0) /
          (data.map (·.value)).headD 0 * 100| →
        ((data.map (·.value)).getLastD 0 - (data.map (·.value)).headD 0) /
          (data.map (·.value)).headD 0 * 100 < 0 →
        calculateTrend data = "decreasing")) := by
  constructor
  · intro data h
    unfold calculateTrend
    rw [if_pos h]
  · intro data h2 h0
    refine ⟨?_, ?_, ?_⟩
    · intro hband
      unfold calculateTrend
      rw [if_neg (by omega), if_neg h0, if_pos hband]
    · intro hband hpos
      unfold calculateTrend
      rw [if_neg (by omega), if_neg h0, if_neg (by
        intro hlt
        exact absurd hband (by push_neg; exact hlt)), if_pos hpos]
    · intro hband hneg
      unfold calculateTrend
      rw [if_neg (by omega), if_neg h0, if_neg (by
        intro hlt
        exact absurd hband (by push_neg; exact hlt)), if_neg (by
        push_neg
        exact le_of_lt hneg)]

/-- Witness for C8: the series 100 → 110 (+10%) is increasing, 100 → 103
(+3%) is stable, 100 → 90 (−10%) is decreasing, and a single point is
insufficient data. -/
theorem trend_direction_by_percent_change_witness :
    calculateTrend [⟨100, "2024-01-01"⟩, ⟨110, "2024-06-01"⟩] = "increasing" ∧
    calculateTrend [⟨100, "2024-01-01"⟩, ⟨103, "2024-06-01"⟩] = "stable" ∧
    calculateTrend [⟨100, "2024-01-01"⟩, ⟨90, "2024-06-01"⟩] = "decreasing" ∧
    calculateTrend [⟨100, "2024-01-01"⟩] = "insufficient_data" :=
  ⟨(trend_direction_by_percent_change.2 [⟨100, "2024-01-01"⟩, ⟨110, "2024-06-01"⟩]
      (by simp) (by norm_num)).2.1 (by norm_num) (by norm_num),
   (trend_direction_by_percent_change.2 [⟨100, "2024-01-01"⟩, ⟨103, "2024-06-01"⟩]
      (by simp) (by norm_num)).1 (by norm_num),
   (trend_direction_by_percent_change.2 [⟨100, "2024-01-01"⟩, ⟨90, "2024-06-01"⟩]
      (by simp) (by norm_num)).2.2 (by norm_num) (by norm_num),
   trend_direction_by_percent_change.1 [⟨100, "2024-01-01"⟩] (by simp)⟩

/-- C9: deletion is owner-scoped and disappears from list results: with
no document row matching both the id and the requesting session, the
delete action fails with the not-found/access-denied error (the model
returns the error before any write, as the source checks ownership before
its UPDATEs, so the store is unchanged); after a successful delete,
neither the document nor any of its parameters appear in the session's
subsequent `list` results. -/
theorem delete_owner_scoped_and_cascades :
    (∀ (documentId sessionToken now : String) (st : DBState),
      documentId ≠ "" →
      (∀ d ∈ st.documents, ¬(d.document_id = documentId ∧ d.session_token = sessionToken)) →
      deleteDocument documentId sessionToken now st =
        .error "Failed to delete document: Document not found or access denied") ∧
    (∀ (documentId sessionToken now : String) (st st' : DBState),
      deleteDocument documentId sessionToken now st = .ok st' →
      (∀ d ∈ (listUserDocuments sessionToken st').1, d.document_id ≠ documentId) ∧
      (∀ r ∈ (listUserDocuments sessionToken st').2, r.documentId ≠ documentId)) := by
  constructor
  · intro documentId sessionToken now st hid hnone
    unfold deleteDocument
    rw [if_neg hid]
    have hfind : st.documents.find? (fun d =>
        d.document_id = documentId && d.session_token = sessionToken) = none := by
      rw [List.find?_eq_none]
      intro d hd
      have := hnone d hd
      simp only [Bool.and_eq_true, decide_eq_true_eq]
      tauto
    rw [hfind]
  · intro documentId sessionToken now st st' h
    unfold deleteDocument at h
    split at h
    · simp at h
    · split at h
      · simp at h
      · simp only [Except.ok.injEq] at h
        subst h
        constructor
        · intro d hd
          simp only [listUserDocuments, List.mem_filter, List.mem_map] at hd
          obtain ⟨⟨d0, hd0, hmap⟩, hcond⟩ := hd
          intro heq
          by_cases hdel : d0.document_id = documentId
          · rw [if_pos hdel] at hmap
            subst hmap
            simp at hcond
          · rw [if_neg hdel] at hmap
            subst hmap
            exact hdel heq
        · intro r hr
          simp only [listUserDocuments, List.mem_flatMap, List.mem_filterMap,
            List.mem_filter, List.mem_map] at hr
          obtain ⟨p, hp, dd, ⟨⟨d0, hd0, hmap⟩, hjoin⟩, hmk⟩ := hr
          intro heq
          by_cases hdel : d0.document_id = documentId
          · rw [if_pos hdel] at hmap
            subst hmap
            split at hmk
            · simp_all
            · simp at hmk
          · rw [if_neg hdel] at hmap
            subst hmap
            split at hmk
            · simp only [Option.some.injEq] at hmk
              subst hmk
              exact hdel heq
            · simp at hmk

deriving instance DecidableEq for DBState

def c9Doc : DocRow :=
  { document_id := "doc1", session_token := "sessA", document_name := "Labs March",
    document_type := "Lab Results", test_date := "2025-01-02",
    parameters_json := "[]", analysis_result := "",
    created_at := "2025-01-02T10:00:00Z", parameter_count := 1,
    status := "active", deleted_at := none }

def c9Param : ParamRow :=
  { parameter_id := "p1", document_id := "doc1", session_token := "sessA",
    parameter_name := "Total Cholesterol", parameter_value := .num 230,
    parameter_unit := "mg/dL", reference_range := "<200 mg/dL",
    test_date := "2025-01-02", category := "Cardiovascular",
    created_at := "2025-01-02T10:00:00Z" }

def c9State : DBState :=
  { documents := [c9Doc], parameters := [c9Param],
    sessions := [{ session_token := "sessA", document_count := 1,
                   last_activity := "2025-01-02T10:00:00Z" }] }

def c9DocDeleted : DocRow :=
  { document_id := "doc1", session_token := "sessA", document_name := "Labs March",
    document_type := "Lab Results", test_date := "2025-01-02",
    parameters_json := "[]", analysis_result := "",
    created_at := "2025-01-02T10:00:00Z", parameter_count := 1,
    status := "deleted", deleted_at := some "2025-02-02T09:00:00Z" }

def c9StateAfter : DBState :=
  { documents := [c9DocDeleted],
    parameters := [c9Param],
    sessions := [{ session_token := "sessA", document_count := 0,
                   last_activity := "2025-01-02T10:00:00Z" }] }

/-- Witness for C9: a foreign session cannot delete `doc1`, and after the
owner deletes it, no health record of the owner's list response carries
its id. -/
theorem delete_owner_scoped_and_cascades_witness :
    deleteDocument "doc1" "sessB" "2025-02-02T09:00:00Z" c9State =
      .error "Failed to delete document: Document not found or access denied" ∧
    (∀ r ∈ (listUserDocuments "sessA" c9StateAfter).2, r.documentId ≠ "doc1") :=
  ⟨delete_owner_scoped_and_cascades.1 "doc1" "sessB" "2025-02-02T09:00:00Z" c9State
      (by decide) (by decide),
   (delete_owner_scoped_and_cascades.2 "doc1" "sessA" "2025-02-02T09:00:00Z"
      c9State c9StateAfter (by rfl)).2⟩

/-- C10 counterexample: the claim says the stored value is null whenever
the value string contains no digits, but `"."` contains no digits and yet
`/[\d.]+/` matches the period run, so `parseFloat(".")` = `NaN` is what
gets stored, not `null`. -/
theorem stored_value_counterexample :
    extractNumericValue (.str ".") = Json.nan ∧ Json.nan ≠ Json.null := by
  refine ⟨by decide, by decide⟩

/-- C10 amended: the value persisted for a parameter is
`extractNumericValue` of `value || parameter` — `parseFloat` of the first
maximal `[\d.]+` run of the string, so `"140/90"` is stored as the single
number 140 (losing the diastolic component); the result is `null` only
when the string contains neither a digit nor a period, while a
periods-only run (as in `"."`) parses to `NaN`. -/
theorem stored_value_amended :
    (∀ s : String, (∀ c ∈ s.toList, ¬(c.isDigit ∨ c = '.')) →
      extractNumericValue (.str s) = .null) ∧
    extractNumericValue (.str "140/90") = Json.num 140 ∧
    extractNumericValue (.str ".") = Json.nan ∧
    (∀ (documentId : String) (parameter : Json)
        (sessionToken testDate newId nowDate nowTime : String) (st : DBState),
      ∃ row : ParamRow,
        (storeHealthParameter documentId parameter sessionToken testDate newId
            nowDate nowTime st).parameters = st.parameters ++ [row] ∧
        row.parameter_value =
          extractNumericValue (jsOr (jget parameter "value")
            (jget parameter "parameter"))) := by
  refine ⟨?_, by decide, by decide, ?_⟩
  · intro s h
    have hrun : ∀ cs : List Char, (∀ c ∈ cs, ¬(c.isDigit ∨ c = '.')) →
        firstDigitDotRun cs = none := by
      intro cs
      induction cs with
      | nil => intro _; rfl
      | cons c t ih =>
        intro hcs
        have hc := hcs c (List.mem_cons_self c t)
        unfold firstDigitDotRun
        rw [if_neg (by simpa using hc)]
        exact ih fun c' hc' => hcs c' (List.mem_cons_of_mem c hc')
    show (match firstDigitDotRun (jsToString (Json.str s)).toList with
      | some run => jsParseFloat (String.mk run)
      | none => Json.null) = Json.null
    rw [show (jsToString (Json.str s)).toList = s.toList from rfl, hrun s.toList h]
  · intro documentId parameter sessionToken testDate newId nowDate nowTime st
    exact ⟨_, rfl, rfl⟩

/-- Witness for C10 amended: `"N/A"` (no digit, no period) stores null,
and a concrete store call appends exactly one row holding
`extractNumericValue` of the candidate's value (140 for `"140/90"`). -/
theorem stored_value_amended_witness :
    extractNumericValue (.str "N/A") = .null ∧
    ∃ row : ParamRow,
      (storeHealthParameter "doc1"
          (Json.obj [("parameter", .str "Blood Pressure"), ("value", .str "140/90")])
          "sessA" "2025-01-02" "p9" "2025-02-02" "2025-02-02T09:00:00Z"
          { documents := [], parameters := [], sessions := [] }).parameters =
        [] ++ [row] ∧
      row.parameter_value =
        extractNumericValue (jsOr
          (jget (Json.obj [("parameter", .str "Blood Pressure"),
            ("value", .str "140/90")]) "value")
          (jget (Json.obj [("parameter", .str "Blood Pressure"),
            ("value", .str "140/90")]) "parameter")) :=
  ⟨stored_value_amended.1 "N/A" (by decide),
   stored_value_amended.2.2.2 "doc1"
     (Json.obj [("parameter", .str "Blood Pressure"), ("value", .str "140/90")])
     "sessA" "2025-01-02" "p9" "2025-02-02" "2025-02-02T09:00:00Z"
     { documents := [], parameters := [], sessions := [] }⟩

/-- Regexes whose every capturing group can only capture a string of the
numeric token language `\d+(\.\d+)?` (the property is attached at each
`grp` node as a semantic premise on its body). -/
inductive CapsOK : RE → Prop where
  | eps : CapsOK .eps
  | any : CapsOK .any
  | lit : ∀ c, CapsOK (.lit c)
  | liti : ∀ c, CapsOK (.liti c)
  | cls : ∀ p, CapsOK (.cls p)
  | bnd : CapsOK .bnd
  | cat : ∀ {r1 r2}, CapsOK r1 → CapsOK r2 → CapsOK (.cat r1 r2)
  | alt : ∀ {r1 r2}, CapsOK r1 → CapsOK r2 → CapsOK (.alt r1 r2)
  | star : ∀ {r lz}, CapsOK r → CapsOK (.star r lz)
  | grp : ∀ {r},
      (∀ fuel prev s out, out ∈ mtch fuel r prev s →
        isNumericStr (String.mk out.1) = true) →
      CapsOK (.grp r)

/-- Soundness of the matcher for captures: under `CapsOK`, every capture
an outcome carries is a numeric token. -/
theorem caps_sound : ∀ fuel (re : RE), CapsOK re →
    ∀ prev s out, out ∈ mtch fuel re prev s →
    ∀ c, out.2.2 = some c → isNumericStr (String.mk c) = true := by
  intro fuel
  induction fuel with
  | zero =>
    intro re _ prev s out hout
    simp [mtch] at hout
  | succ fuel ih =>
    intro re hre prev s out hout c hc
    cases hre with
    | eps =>
      simp [mtch] at hout
      rw [hout] at hc
      simp at hc
    | any =>
      rcases s with _ | ⟨x, rest⟩ <;> simp [mtch] at hout
      rw [hout] at hc
      simp at hc
    | lit a =>
      rcases s with _ | ⟨x, rest⟩ <;> simp [mtch] at hout
      rw [hout.2] at hc
      simp at hc
    | liti a =>
      rcases s with _ | ⟨x, rest⟩ <;> simp [mtch] at hout
      rw [hout.2] at hc
      simp at hc
    | cls p =>
      rcases s with _ | ⟨x, rest⟩ <;> simp [mtch] at hout
      rw [hout.2] at hc
      simp at hc
    | bnd =>
      simp only [mtch] at hout
      split at hout
      · simp only [List.mem_singleton] at hout
        rw [hout] at hc
        simp at hc
      · simp at hout
    | cat hr1 hr2 =>
      simp only [mtch, List.mem_flatMap, List.mem_map] at hout
      obtain ⟨o1, ho1, o2, ho2, hout⟩ := hout
      rw [← hout] at hc
      simp only at hc
      rcases ho2cap : o2.2.2 with _ | c2
      · rw [ho2cap] at hc
        simp only [Option.none_orElse] at hc
        exact ih _ hr1 _ _ o1 ho1 c hc
      · rw [ho2cap] at hc
        simp only [Option.some_orElse] at hc
        cases hc
        exact ih _ hr2 _ _ o2 ho2 c ho2cap
    | alt hr1 hr2 =>
      simp only [mtch, List.mem_append] at hout
      rcases hout with h1 | h2
      · exact ih _ hr1 _ _ out h1 c hc
      · exact ih _ hr2 _ _ out h2 c hc
    | @star r lz hr =>
      simp only [mtch] at hout
      have hmain : out ∈ ((mtch fuel r prev s).flatMap fun o1 =>
          if o1.1.isEmpty then [] else
          (mtch fuel (RE.star r lz) (lastCharOr prev o1.1) o1.2.1).map fun o2 =>
            (o1.1 ++ o2.1, o2.2.1, o2.2.2 <|> o1.2.2)) ∨
          out = ([], s, none) := by
        split at hout
        · rcases List.mem_cons.mp hout with h | h
          · exact Or.inr h
          · exact Or.inl h
        · rcases List.mem_append.mp hout with h | h
          · exact Or.inl h
          · exact Or.inr (List.mem_singleton.mp h)
      rcases hmain with hmem | hstop
      · simp only [List.mem_flatMap] at hmem
        obtain ⟨o1, ho1, hin⟩ := hmem
        split at hin
        · simp at hin
        · simp only [List.mem_map] at hin
          obtain ⟨o2, ho2, hout2⟩ := hin
          rw [← hout2] at hc
          simp only at hc
          rcases ho2cap : o2.2.2 with _ | c2
          · rw [ho2cap] at hc
            simp only [Option.none_orElse] at hc
            exact ih _ hr _ _ o1 ho1 c hc
          · rw [ho2cap] at hc
            simp only [Option.some_orElse] at hc
            cases hc
            exact ih _ (CapsOK.star hr) _ _ o2 ho2 c ho2cap
      · rw [hstop] at hc
        simp at hc
    | grp hsem =>
      simp only [mtch, List.mem_map] at hout
      obtain ⟨o1, ho1, hout⟩ := hout
      rw [← hout] at hc
      simp only [Option.some.injEq] at hc
      subst hc
      exact hsem fuel prev s o1 ho1

theorem cls_consumed (p : Char → Bool) :
    ∀ fuel prev s (out : List Char × List Char × Option (List Char)),
      out ∈ mtch fuel (RE.cls p) prev s →
      ∃ x rest, s = x :: rest ∧ p x = true ∧ out = ([x], rest, none) := by
  intro fuel prev s out hout
  cases fuel with
  | zero => simp [mtch] at hout
  | succ fuel =>
    rcases s with _ | ⟨x, rest⟩ <;> simp [mtch] at hout
    exact ⟨x, rest, rfl, hout.1, hout.2⟩

theorem digitsStar_all :
    ∀ fuel prev s (out : List Char × List Char × Option (List Char)),
      out ∈ mtch fuel (RE.star digitC false) prev s →
      out.1.all Char.isDigit = true := by
  intro fuel
  induction fuel with
  | zero => intro prev s out hout; simp [mtch] at hout
  | succ fuel ih =>
    intro prev s out hout
    simp only [mtch] at hout
    rw [if_neg (by simp)] at hout
    rcases List.mem_append.mp hout with hmem | hstop
    · simp only [List.mem_flatMap] at hmem
      obtain ⟨o1, ho1, hin⟩ := hmem
      obtain ⟨x, rest, hs, hpx, ho1e⟩ := cls_consumed Char.isDigit fuel prev s o1 ho1
      rw [ho1e] at hin
      simp only [List.isEmpty_cons, Bool.false_eq_true, if_false, List.mem_map] at hin
      obtain ⟨o2, ho2, hout2⟩ := hin
      rw [← hout2]
      have h2 := ih _ _ o2 ho2
      simp [List.all_append, hpx, h2]
    · rw [List.mem_singleton.mp hstop]
      rfl

theorem digitsPlus_shape :
    ∀ fuel prev s (out : List Char × List Char × Option (List Char)),
      out ∈ mtch fuel (rePlus digitC) prev s →
      out.1.all Char.isDigit = true ∧ out.1 ≠ [] := by
  intro fuel prev s out hout
  cases fuel with
  | zero => simp [mtch] at hout
  | succ fuel =>
    simp only [rePlus, mtch, List.mem_flatMap, List.mem_map] at hout
    obtain ⟨o1, ho1, o2, ho2, hout2⟩ := hout
    obtain ⟨x, rest, hs, hpx, ho1e⟩ := cls_consumed Char.isDigit fuel prev s o1 ho1
    have h2 := digitsStar_all fuel _ _ o2 ho2
    rw [← hout2, ho1e]
    simp only [List.cons_append, List.nil_append, List.all_cons, List.all_append]
    refine ⟨by simp [hpx, h2], by simp⟩

theorem lit_consumed (a : Char) :
    ∀ fuel prev s (out : List Char × List Char × Option (List Char)),
      out ∈ mtch fuel (RE.lit a) prev s →
      ∃ rest, s = a :: rest ∧ out = ([a], rest, none) := by
  intro fuel prev s out hout
  cases fuel with
  | zero => simp [mtch] at hout
  | succ fuel =>
    rcases s with _ | ⟨x, rest⟩ <;> simp [mtch] at hout
    obtain ⟨hx, ho⟩ := hout
    subst hx
    exact ⟨rest, rfl, ho⟩

theorem fracOpt_shape :
    ∀ fuel prev s (out : List Char × List Char × Option (List Char)),
      out ∈ mtch fuel (reOpt (RE.cat (RE.lit '.') (rePlus digitC))) prev s →
      out.1 = [] ∨ ∃ ds, out.1 = '.' :: ds ∧ ds.all Char.isDigit = true ∧ ds ≠ [] := by
  intro fuel prev s out hout
  cases fuel with
  | zero => simp [mtch] at hout
  | succ fuel =>
    simp only [reOpt, mtch, List.mem_append] at hout
    rcases hout with hleft | hright
    · right
      cases fuel with
      | zero => simp [mtch] at hleft
      | succ fuel =>
        simp only [mtch, List.mem_flatMap, List.mem_map] at hleft
        obtain ⟨o1, ho1, o2, ho2, hout2⟩ := hleft
        obtain ⟨rest, hs, ho1e⟩ := lit_consumed '.' fuel prev s o1 ho1
        have h2 := digitsPlus_shape fuel _ _ o2 ho2
        refine ⟨o2.1, ?_, h2.1, h2.2⟩
        rw [← hout2, ho1e]
        rfl
    · left
      cases fuel with
      | zero => simp [mtch] at hright
      | succ fuel =>
        simp only [mtch, List.mem_singleton] at hright
        rw [hright]

theorem takeWhile_all_eq (p : Char → Bool) :
    ∀ d : List Char, d.all p = true → d.takeWhile p = d := by
  intro d
  induction d with
  | nil => intro _; rfl
  | cons x t ih =>
    intro h
    simp only [List.all_cons, Bool.and_eq_true] at h
    simp [List.takeWhile, h.1, ih h.2]

theorem takeWhile_append_stop (p : Char → Bool) :
    ∀ (d : List Char) (x : Char) (rest : List Char),
      d.all p = true → p x = false → (d ++ x :: rest).takeWhile p = d := by
  intro d x rest hall hx
  induction d with
  | nil => simp [List.takeWhile, hx]
  | cons y t ih =>
    simp only [List.all_cons, Bool.and_eq_true] at hall
    simp [List.takeWhile, hall.1, ih hall.2]

/-- Everything `numBody` (the body of the capture `(\d+(?:\.\d+)?)`)
consumes is a numeric token. -/
theorem numBody_numeric :
    ∀ fuel prev s (out : List Char × List Char × Option (List Char)),
      out ∈ mtch fuel numBody prev s → isNumericStr (String.mk out.1) = true := by
  intro fuel prev s out hout
  cases fuel with
  | zero => simp [mtch] at hout
  | succ fuel =>
    simp only [numBody, mtch, List.mem_flatMap, List.mem_map] at hout
    obtain ⟨o1, ho1, o2, ho2, hout2⟩ := hout
    have h1 := digitsPlus_shape fuel prev s o1 ho1
    have h2 := fracOpt_shape fuel _ _ o2 ho2
    rw [← hout2]
    simp only [isNumericStr]
    have htl : (String.mk (o1.1 ++ o2.1)).toList = o1.1 ++ o2.1 := rfl
    rw [htl]
    rcases h2 with h2e | ⟨ds, h2eq, h2all, h2ne⟩
    · rw [h2e, List.append_nil]
      rw [takeWhile_all_eq Char.isDigit o1.1 h1.1]
      simp only [List.drop_length]
      simp [h1.2]
    · rw [h2eq]
      rw [takeWhile_append_stop Char.isDigit o1.1 '.' ds h1.1 (by decide)]
      rw [List.drop_left]
      simp [h1.2, h2ne, allDigits, h2all]

/-- The capture of the shared numeric group is numeric. -/
theorem capsOK_numGroup : CapsOK numGroup :=
  CapsOK.grp fun fuel prev s out hout => numBody_numeric fuel prev s out hout

/-- Syntactic absence of capturing groups. -/
def noGrp : RE → Bool
  | .cat r1 r2 => noGrp r1 && noGrp r2
  | .alt r1 r2 => noGrp r1 && noGrp r2
  | .star r _ => noGrp r
  | .grp _ => false
  | _ => true

theorem noGrp_capsOK : ∀ re : RE, noGrp re = true → CapsOK re := by
  intro re
  induction re with
  | eps => intro _; exact CapsOK.eps
  | any => intro _; exact CapsOK.any
  | lit c => intro _; exact CapsOK.lit c
  | liti c => intro _; exact CapsOK.liti c
  | cls p => intro _; exact CapsOK.cls p
  | bnd => intro _; exact CapsOK.bnd
  | cat r1 r2 ih1 ih2 =>
    intro h
    simp only [noGrp, Bool.and_eq_true] at h
    exact CapsOK.cat (ih1 h.1) (ih2 h.2)
  | alt r1 r2 ih1 ih2 =>
    intro h
    simp only [noGrp, Bool.and_eq_true] at h
    exact CapsOK.alt (ih1 h.1) (ih2 h.2)
  | star r lz ih =>
    intro h
    exact CapsOK.star (ih h)
  | grp r _ =>
    intro h
    simp [noGrp] at h

/-- Every regex of the `patterns` table has only numeric captures. -/
theorem healthPatterns_capsOK : ∀ e ∈ healthPatterns, ∀ re ∈ e.patterns, CapsOK re := by
  intro e he re hre
  simp only [healthPatterns, List.mem_cons, List.not_mem_nil, or_false] at he
  rcases he with rfl | rfl | rfl | rfl | rfl | rfl | rfl <;>
    simp only [List.mem_cons, List.not_mem_nil, or_false] at hre <;>
    [rcases hre with rfl | rfl | rfl;
     rcases hre with rfl | rfl | rfl;
     rcases hre with rfl | rfl | rfl;
     rcases hre with rfl | rfl | rfl | rfl;
     rcases hre with rfl | rfl | rfl | rfl;
     rcases hre with rfl | rfl | rfl | rfl;
     rcases hre with rfl | rfl] <;>
    simp only [tcRe1, tcRe2, tcRe3, ldlRe1, ldlRe2, ldlRe3, hdlRe1, hdlRe2, hdlRe3,
      a1cRe1, a1cRe2, a1cRe3, a1cRe4, altRe1, altRe2, altRe3, altRe4,
      astRe1, astRe2, astRe3, astRe4, creRe1, creRe2, reSeq, List.foldr] <;>
    repeat' first
      | exact capsOK_numGroup
      | exact noGrp_capsOK _ (by decide)
      | apply CapsOK.cat


theorem findSome?_exists {α β : Type} (f : α → Option β) (l : List α) (b : β)
    (h : l.findSome? f = some b) : ∃ a ∈ l, f a = some b := by
  induction l with
  | nil => simp [List.findSome?] at h
  | cons a t ih =>
    rw [List.findSome?] at h
    rcases hf : f a with _ | b0
    · rw [hf] at h
      obtain ⟨a', ha', hfa'⟩ := ih h
      exact ⟨a', List.mem_cons_of_mem a ha', hfa'⟩
    · rw [hf] at h
      cases h
      exact ⟨a, List.mem_cons_self a t, hf⟩

theorem execCore_nil (re : RE) (prev : Option Char) (idx : Nat) :
    execCore re prev [] idx = execCoreStep re prev [] idx none := rfl

theorem execCore_cons (re : RE) (prev : Option Char) (ch : Char) (t : List Char)
    (idx : Nat) :
    execCore re prev (ch :: t) idx =
      execCoreStep re prev (ch :: t) idx (execCore re (some ch) t (idx + 1)) := rfl

theorem execCoreStep_cap_numeric {re : RE} (hre : CapsOK re)
    (prev : Option Char) (s : List Char) (idx : Nat)
    (next : Option (Nat × List Char × List Char × Option (List Char)))
    (hnext : ∀ r, next = some r → ∀ c, r.2.2.2 = some c →
      isNumericStr (String.mk c) = true)
    (r : Nat × List Char × List Char × Option (List Char))
    (h : execCoreStep re prev s idx next = some r) :
    ∀ c, r.2.2.2 = some c → isNumericStr (String.mk c) = true := by
  intro c hc
  unfold execCoreStep at h
  rcases hm : mtch (reFuel re s) re prev s with _ | ⟨o, tl⟩
  · rw [hm] at h
    exact hnext r h c hc
  · rw [hm] at h
    simp only [Option.some.injEq] at h
    rw [← h] at hc
    exact caps_sound (reFuel re s) re hre prev s o
      (hm ▸ List.mem_cons_self o tl) c hc

theorem execCore_cap_numeric {re : RE} (hre : CapsOK re) :
    ∀ (s : List Char) (prev : Option Char) (idx : Nat)
      (r : Nat × List Char × List Char × Option (List Char)),
      execCore re prev s idx = some r →
      ∀ c, r.2.2.2 = some c → isNumericStr (String.mk c) = true := by
  intro s
  induction s with
  | nil =>
    intro prev idx r h
    rw [execCore_nil] at h
    exact execCoreStep_cap_numeric hre prev [] idx none (by intro r h'; simp at h') r h
  | cons ch t ih =>
    intro prev idx r h
    rw [execCore_cons] at h
    exact execCoreStep_cap_numeric hre prev (ch :: t) idx _
      (fun r' h' => ih (some ch) (idx + 1) r' h') r h

theorem execAllGo_cap_numeric {re : RE} (hre : CapsOK re) :
    ∀ (fuel : Nat) (prev : Option Char) (s : List Char)
      (oc : List Char × Option (List Char)),
      oc ∈ execAllGo fuel re prev s →
      ∀ c, oc.2 = some c → isNumericStr (String.mk c) = true := by
  intro fuel
  induction fuel with
  | zero =>
    intro prev s oc hoc
    exact absurd hoc (List.not_mem_nil oc)
  | succ fuel ih =>
    intro prev s oc hoc c hc
    have hoc2 : oc ∈
        (match execCore re prev s 0 with
         | none => []
         | some (idx, cs, rest, cap) =>
           if cs = [] then
             (cs, cap) ::
               (match s.drop idx with
                | [] => []
                | ch :: t => execAllGo fuel re (some ch) t)
           else (cs, cap) :: execAllGo fuel re (lastCharOr prev cs) rest) := hoc
    rcases he : execCore re prev s 0 with _ | ⟨idx, cs, rest, cap⟩
    · rw [he] at hoc2
      exact absurd hoc2 (List.not_mem_nil oc)
    · rw [he] at hoc2
      simp only at hoc2
      by_cases hemp : cs = []
    
      · rw [if_pos hemp] at hoc2
        rcases List.mem_cons.mp hoc2 with h1 | h1
        · rw [h1] at hc
          exact execCore_cap_numeric hre s prev 0 _ he c hc
        · rcases hd : s.drop idx with _ | ⟨ch2, t2⟩
          · rw [hd] at h1
            exact absurd h1 (List.not_mem_nil oc)
          · rw [hd] at h1
            exact ih _ _ oc h1 c hc
      · rw [if_neg hemp] at hoc2
        rcases List.mem_cons.mp hoc2 with h1 | h1
        · rw [h1] at hc
          exact execCore_cap_numeric hre s prev 0 _ he c hc
        · exact ih _ _ oc h1 c hc

theorem firstTruthyCap_numeric {re : RE} (hre : CapsOK re) (s : List Char)
    (v : List Char) (h : firstTruthyCap re s = some v) :
    isNumericStr (String.mk v) = true := by
  unfold firstTruthyCap at h
  obtain ⟨oc, hoc, hf⟩ := findSome?_exists _ _ _ h
  rcases hcap : oc.2 with _ | v0
  · rw [hcap] at hf
    simp at hf
  · rw [hcap] at hf
    dsimp only at hf
    split at hf
    · injection hf with hv
      subst hv
      exact execAllGo_cap_numeric hre _ _ _ oc hoc _ hcap
    · simp at hf

theorem extractCap_numeric (e : PatternEntry) (he : ∀ re ∈ e.patterns, CapsOK re)
    (s : List Char) (v : List Char) (h : extractCap e s = some v) :
    isNumericStr (String.mk v) = true := by
  unfold extractCap at h
  obtain ⟨re, hre, hf⟩ := findSome?_exists _ _ _ h
  exact firstTruthyCap_numeric (he re hre) s v hf

theorem patternExtraction_fold_mem (P : Json → Prop) (s : List Char) :
    ∀ (entries : List PatternEntry) (acc : List Json × List String),
      (∀ c ∈ acc.1, P c) →
      (∀ e ∈ entries, ∀ v, extractCap e s = some v → P (mkPatternObj e (String.mk v))) →
      ∀ c ∈ (entries.foldl
        (fun acc e =>
          if acc.2.contains e.name then acc
          else
            match extractCap e s with
            | some v => (acc.1 ++ [mkPatternObj e (String.mk v)], acc.2 ++ [e.name])
            | none => acc)
        acc).1, P c := by
  intro entries
  induction entries with
  | nil => intro acc hacc _ c hc; exact hacc c hc
  | cons e t ih =>
    intro acc hacc hentries c hc
    simp only [List.foldl_cons] at hc
    refine ih _ ?_ (fun e' he' v hv => hentries e' (List.mem_cons_of_mem e he') v hv) c hc
    by_cases hcont : acc.2.contains e.name = true
    · rw [if_pos hcont]
      exact hacc
    · rw [if_neg hcont]
      rcases hcap : extractCap e s with _ | v
    
      · exact hacc
      · intro c' hc'
        rcases List.mem_append.mp hc' with h1 | h1
        · exact hacc c' h1
        · rw [List.mem_singleton.mp h1]
          exact hentries e (List.mem_cons_self e t) v hcap

theorem aggressive_values_numeric (t : String) :
    ∀ c ∈ aggressivePatternExtraction t,
      ∃ v : String, jget c "value" = Json.str v ∧ isNumericStr v = true := by
  intro c hc
  unfold aggressivePatternExtraction at hc
  refine patternExtraction_fold_mem
    (fun c => ∃ v : String, jget c "value" = Json.str v ∧ isNumericStr v = true)
    t.toList healthPatterns ([], []) (by intro c' hc'; simp at hc') ?_ c hc
  intro e he v hv
  refine ⟨String.mk v, rfl, ?_⟩
  exact extractCap_numeric e (healthPatterns_capsOK e he) t.toList v hv

theorem firstNumCap_numeric (s : List Char) (v : List Char)
    (h : firstNumCap s = some v) : isNumericStr (String.mk v) = true := by
  unfold firstNumCap at h
  rcases he : jsExec numGroup s with _ | ⟨idx, cs, rest, cap⟩
  · rw [he] at h
    simp at h
  · rw [he] at h
    rcases hcap : cap with _ | v0
    · rw [hcap] at h
      simp at h
    · rw [hcap] at h
      dsimp only at h
      injection h with hv
      subst hv
      rw [hcap] at he
      exact execCore_cap_numeric capsOK_numGroup s none 0 _ he v0 rfl

theorem fuzzyExtraction_fold_mem (P : Json → Prop) (s : List Char) :
    ∀ (terms : List HealthTerm) (acc : List Json × List String),
      (∀ c ∈ acc.1, P c) →
      (∀ item ∈ terms, ∀ (snippet v : List Char), firstNumCap snippet = some v →
        P (mkFuzzyObj item (String.mk v))) →
      ∀ c ∈ (terms.foldl
        (fun acc item =>
          if acc.2.contains item.name then acc
          else
            match searchCI item.term.toList s 0 with
            | none => acc
            | some ix =>
              let start := ix - 25
              let stop := min s.length (ix + item.term.length + 25)
              let snippet := (s.take stop).drop start
              match firstNumCap snippet with
              | some v => (acc.1 ++ [mkFuzzyObj item (String.mk v)], acc.2 ++ [item.name])
              | none => acc)
        acc).1, P c := by
  intro terms
  induction terms with
  | nil => intro acc hacc _ c hc; exact hacc c hc
  | cons item t ih =>
    intro acc hacc hterms c hc
    simp only [List.foldl_cons] at hc
    refine ih _ ?_ (fun it' hit' sn v hv => hterms it' (List.mem_cons_of_mem item hit') sn v hv) c hc
    by_cases hcont : acc.2.contains item.name = true
    · rw [if_pos hcont]
      exact hacc
    · rw [if_neg hcont]
      rcases hs : searchCI item.term.toList s 0 with _ | ix
    
      · exact hacc
      · dsimp only
        rcases hcap : firstNumCap ((s.take (min s.length (ix + item.term.length + 25))).drop (ix - 25)) with _ | v
      
        · exact hacc
        · intro c' hc'
          rcases List.mem_append.mp hc' with h1 | h1
          · exact hacc c' h1
          · rw [List.mem_singleton.mp h1]
            exact hterms item (List.mem_cons_self item t) _ v hcap

theorem fuzzy_values_numeric (t : String) :
    ∀ c ∈ fuzzyTextExtraction t,
      ∃ v : String, jget c "value" = Json.str v ∧ isNumericStr v = true := by
  intro c hc
  unfold fuzzyTextExtraction at hc
  refine fuzzyExtraction_fold_mem
    (fun c => ∃ v : String, jget c "value" = Json.str v ∧ isNumericStr v = true)
    t.toList healthTerms ([], []) (by intro c' hc'; simp at hc') ?_ c hc
  intro item _ snippet v hv
  exact ⟨String.mk v, rfl, firstNumCap_numeric snippet v hv⟩

theorem smartAI_passthrough (t s sp : String) (data : Json)
    (htr : truthy (Json.str s) = true)
    (hsp : jsonSpan s = some sp) (hp : jsonParse sp = some data) :
    smartAIExtraction t (aiRespOf s) =
      jsOr (jget data "healthParameters") (Json.arr []) := by
  unfold smartAIExtraction smartAIBody aiRespOf
  dsimp only
  have hj : jget (Json.obj [("response", Json.str s)]) "response" = Json.str s := rfl
  rw [hj]
  simp [htr, hsp, hp]

/-- The model response used to exhibit the missing LLM-side check: its
`healthParameters` array carries the non-numeric value string `"abc"`. -/
def c7BadResp : String :=
  "\x7b\"healthParameters\":[\x7b\"parameter\":\"X\",\"value\":\"abc\"\x7d]\x7d"

/-- A well-formed model response whose single candidate has value `"7"`. -/
def c7AiResp : String :=
  "\x7b\"healthParameters\":[\x7b\"parameter\":\"X\",\"value\":\"7\"\x7d]\x7d"

/-- The JSON value `JSON.parse` produces for `c7AiResp`. -/
def c7AiData : Json :=
  Json.obj [("healthParameters",
    Json.arr [Json.obj [("parameter", Json.str "X"), ("value", Json.str "7")]])]

/-- The candidate the pattern strategy emits for
`"Total Cholesterol: 185 mg/dL"`. -/
def c7PatObj : Json :=
  Json.obj [("category", Json.str "Cardiovascular"),
            ("parameter", Json.str "Total Cholesterol"),
            ("value", Json.str "185"), ("unit", Json.str "mg/dL"),
            ("referenceRange", Json.str "<200 mg/dL"),
            ("status", Json.str "Normal"), ("date", Json.str "2025-09-09")]

/-- The candidate the fuzzy strategy emits for `"cholesterol 185"`. -/
def c7FuzObj : Json :=
  Json.obj [("category", Json.str "Cardiovascular"),
            ("parameter", Json.str "Total Cholesterol"),
            ("value", Json.str "185"), ("unit", Json.str "mg/dL"),
            ("referenceRange", Json.str "Check with healthcare provider"),
            ("status", Json.str "Unknown"), ("date", Json.str "2025-09-09")]

/-- C7 counterexample: the LLM generator does not enforce the
numeric-value invariant — a model response whose `healthParameters` array
carries the non-numeric value string `"abc"` is passed through verbatim as
an emitted candidate list. -/
theorem generator_numeric_counterexample :
    smartAIExtraction "irrelevant text" (aiRespOf c7BadResp) =
      Json.arr [Json.obj [("parameter", Json.str "X"), ("value", Json.str "abc")]] ∧
    isNumericStr "abc" = false := by
  refine ⟨by decide, by decide⟩

/-- C7 amended: the pattern and fuzzy generators do satisfy the invariant —
every candidate either of them emits carries a syntactically numeric value
string, because their only value source is the capture of the numeric
group `(\d+(?:\.\d+)?)` — but the LLM generator checks nothing: whatever
`healthParameters` array the parsed model response carries is returned
unchanged, numeric or not. -/
theorem generator_numeric_amended :
    (∀ t : String, ∀ c ∈ aggressivePatternExtraction t,
       ∃ v : String, jget c "value" = Json.str v ∧ isNumericStr v = true) ∧
    (∀ t : String, ∀ c ∈ fuzzyTextExtraction t,
       ∃ v : String, jget c "value" = Json.str v ∧ isNumericStr v = true) ∧
    (∀ (t s sp : String) (data : Json),
       truthy (Json.str s) = true →
       jsonSpan s = some sp → jsonParse sp = some data →
       smartAIExtraction t (aiRespOf s) =
         jsOr (jget data "healthParameters") (Json.arr [])) :=
  ⟨aggressive_values_numeric, fuzzy_values_numeric, smartAI_passthrough⟩

theorem generator_numeric_amended_witness :
    (∃ v : String, jget c7PatObj "value" = Json.str v ∧ isNumericStr v = true) ∧
    (∃ v : String, jget c7FuzObj "value" = Json.str v ∧ isNumericStr v = true) ∧
    smartAIExtraction "patient lab report" (aiRespOf c7AiResp) =
      jsOr (jget c7AiData "healthParameters") (Json.arr []) :=
  ⟨generator_numeric_amended.1 "Total Cholesterol: 185 mg/dL" c7PatObj (by decide),
   generator_numeric_amended.2.1 "cholesterol 185" c7FuzObj (by decide),
   generator_numeric_amended.2.2 "patient lab report" c7AiResp c7AiResp c7AiData
     (by decide) (by decide) (by decide)⟩
